import Mathlib

/-!
Verification of the gofeed Sitemap pipeline (detector, Sitemap extractor,
orchestrator) against its natural-language specification.

The XML cursor (goxpp) and the `internal/shared` helpers are external to the
source under verification; they are modelled from the specification's
"primitive cursor operations": expect-start(tag), expect-end(tag),
next-significant-token, skip, read-text, read-attribute(name).  An XML input
is modelled as the list of significant tokens the cursor would deliver:
start tags (with attributes and an extension-namespace flag), end tags and
text runs.
-/

namespace GofeedSpec

/-- Modelled from the spec: one event of the forward-only XML tokenizer
("Cursor").  `start` carries the raw tag name, its attributes, and whether
the element "belongs to a recognized extension namespace". -/
inductive Tok where
  | start (name : String) (attrs : List (String × String)) (isExt : Bool)
  | stop (name : String)
  | txt (s : String)
deriving DecidableEq, Repr

/-- Modelled from the spec: read-attribute(name); a missing attribute reads
as the empty string (as goxpp's `Attribute` does). -/
def attrLookup : List (String × String) → String → String
  | [], _ => ""
  | (k, v) :: rest, n => if k = n then v else attrLookup rest n

/-- ASCII lowercase of a character (the model of Go's `strings.ToLower`
restricted to the ASCII tag names the parser compares against). -/
def lowerChar (c : Char) : Char :=
  if 'A' ≤ c ∧ c ≤ 'Z' then Char.ofNat (c.toNat + 32) else c

/-- `strings.ToLower` on tag names, modelled for ASCII. -/
def strLower (s : String) : String := ⟨s.data.map lowerChar⟩

/-- Modelled from the spec: next-significant-token — advance the cursor,
skipping insignificant (text) content, and deliver the next start or end
tag; reaching the end of the document first is a (fatal) error
(`shared.NextTag`). -/
def nextTag : List Tok → Except String (Tok × List Tok)
  | [] => .error "failed to find NextTag"
  | .txt _ :: ts => nextTag ts
  | t :: ts => .ok (t, ts)

/-- Modelled from the spec: read-text (`shared.ParseText`) — starting just
inside an element, concatenate its text content and consume the closing
tag; a nested child element is a structural error. -/
def parseText : List Tok → Except String (String × List Tok)
  | [] => .error "premature end of document"
  | .txt s :: ts =>
      match parseText ts with
      | .ok (r, ts') => .ok (s ++ r, ts')
      | .error e => .error e
  | .stop _ :: ts => .ok ("", ts)
  | .start _ _ _ :: _ => .error "expected text content"

/-- Modelled from the spec: skip (`p.Skip()`) — consume one full subtree
unread.  `d` is the number of currently open elements being skipped; the
call site uses `1`, positioned just after the opening tag. -/
def skipSub : List Tok → Nat → Except String (List Tok)
  | [], _ => .error "premature end of document"
  | .start _ _ _ :: ts, d => skipSub ts (d + 1)
  | .txt _ :: ts, d => skipSub ts d
  | .stop _ :: ts, d => if d ≤ 1 then .ok ts else skipSub ts (d - 1)

/-- Modelled from the spec: expect-start / expect-end (`p.Expect`), checking
the current token's kind and (case-insensitively) its name. -/
def expectTok (t : Tok) (isStart : Bool) (nm : String) : Except String Unit :=
  match t, isStart with
  | .start n _ _, true =>
      if strLower n = strLower nm then .ok () else .error ("Expected StartTag " ++ nm)
  | .stop n, false =>
      if strLower n = strLower nm then .ok () else .error ("Expected EndTag " ++ nm)
  | _, _ => .error "unexpected event"

/-- Modelled from the spec: `shared.FindRoot` — read as far as the
document's root start element, skipping everything before it; no start
element at all is an error. -/
def findRoot : List Tok → Except String (Tok × List Tok)
  | [] => .error "failed to find root node before document end"
  | .start n a e :: ts => .ok (.start n a e, ts)
  | _ :: ts => findRoot ts

theorem nextTag_length {ts ts' : List Tok} {t : Tok}
    (h : nextTag ts = .ok (t, ts')) : ts'.length < ts.length := by
  induction ts with
  | nil => simp [nextTag] at h
  | cons hd tl ih =>
    cases hd with
    | txt s =>
      simp only [nextTag] at h
      exact Nat.lt_succ_of_lt (ih h)
    | start n a e =>
      simp only [nextTag, Except.ok.injEq, Prod.mk.injEq] at h
      simp [← h.2]
    | stop n =>
      simp only [nextTag, Except.ok.injEq, Prod.mk.injEq] at h
      simp [← h.2]

theorem parseText_length {ts ts' : List Tok} {s : String}
    (h : parseText ts = .ok (s, ts')) : ts'.length < ts.length := by
  induction ts generalizing s ts' with
  | nil => simp [parseText] at h
  | cons hd tl ih =>
    cases hd with
    | txt u =>
      simp only [parseText] at h
      cases h' : parseText tl with
      | ok p =>
        obtain ⟨r, ts''⟩ := p
        rw [h'] at h
        simp only [Except.ok.injEq, Prod.mk.injEq] at h
        have := ih h'
        rw [← h.2]
        exact Nat.lt_succ_of_lt this
      | error e => rw [h'] at h; simp at h
    | start n a e => simp [parseText] at h
    | stop n =>
      simp only [parseText, Except.ok.injEq, Prod.mk.injEq] at h
      simp [← h.2]

theorem skipSub_length {ts ts' : List Tok} {d : Nat}
    (h : skipSub ts d = .ok ts') : ts'.length < ts.length := by
  induction ts generalizing d with
  | nil => simp [skipSub] at h
  | cons hd tl ih =>
    cases hd with
    | txt u =>
      simp only [skipSub] at h
      exact Nat.lt_succ_of_lt (ih h)
    | start n a e =>
      simp only [skipSub] at h
      exact Nat.lt_succ_of_lt (ih h)
    | stop n =>
      simp only [skipSub] at h
      by_cases hd1 : d ≤ 1
      · simp only [hd1, if_true, Except.ok.injEq] at h
        simp [← h]
      · simp only [hd1, if_false] at h
        exact Nat.lt_succ_of_lt (ih h)

namespace Sitemap

/-- `sitemap.Image` (src/sitemap/feed.go). -/
structure Image where
  Link : String := ""
deriving DecidableEq, Repr

/-- `sitemap.News` (src/sitemap/feed.go), the transient carrier for a
`news` element's fields. -/
structure News where
  Name : String := ""
  Title : String := ""
  Language : String := ""
  PublicationDate : String := ""
deriving DecidableEq, Repr

end Sitemap

/-- A digit character's value. -/
def digitVal (c : Char) : Option Nat :=
  if c.isDigit then some (c.toNat - 48) else none

/-- Two-digit decimal number. -/
def digits2 (a b : Char) : Option Nat := do
  let x ← digitVal a
  let y ← digitVal b
  pure (10 * x + y)

/-- Four-digit decimal number. -/
def digits4 (a b c d : Char) : Option Nat := do
  let x ← digits2 a b
  let y ← digits2 c d
  pure (100 * x + y)

/-- Days from 1970-01-01 to the given civil date (proleptic Gregorian). -/
def daysFromCivil (y m d : Int) : Int :=
  let y := if m ≤ 2 then y - 1 else y
  let era := (if 0 ≤ y then y else y - 399) / 400
  let yoe := y - era * 400
  let mp := (m + 9) % 12
  let doy := (153 * mp + 2) / 5 + d - 1
  let doe := yoe * 365 + yoe / 4 - yoe / 100 + doy
  era * 146097 + doe - 719468

/-- Modelled from the spec: `shared.ParseDate`, the best-effort date parser
(not under src/).  The model accepts the RFC3339 UTC form
`YYYY-MM-DDTHH:MM:SSZ` and yields the instant as seconds since the epoch;
any other string fails.  An instant is location-free, so UTC normalization
of a successfully parsed date is the identity on this representation. -/
def parseDate (s : String) : Option Int :=
  match s.toList with
  | [y1, y2, y3, y4, c1, m1, m2, c2, d1, d2, c3, h1, h2, c4, n1, n2, c5, s1, s2, c6] =>
    if c1 = '-' ∧ c2 = '-' ∧ c3 = 'T' ∧ c4 = ':' ∧ c5 = ':' ∧ c6 = 'Z' then do
      let y ← digits4 y1 y2 y3 y4
      let mo ← digits2 m1 m2
      let dy ← digits2 d1 d2
      let hh ← digits2 h1 h2
      let mi ← digits2 n1 n2
      let ss ← digits2 s1 s2
      if 1 ≤ mo ∧ mo ≤ 12 ∧ 1 ≤ dy ∧ dy ≤ 31 ∧ hh ≤ 23 ∧ mi ≤ 59 ∧ ss ≤ 59 then
        some (86400 * daysFromCivil y mo dy + 3600 * hh + 60 * mi + ss)
      else none
    else none
  | _ => none

/-- Modelled from the spec: `time.Time.UTC()` re-expresses an instant in the
UTC location; on the location-free instant representation it is the
identity. -/
def timeUTC (t : Int) : Int := t

namespace Sitemap

/-- `sitemap.Item` (src/sitemap/feed.go).  `Extensions` is an opaque
accumulator; `none` models the Go nil map. -/
structure Item where
  Title : String := ""
  Link : String := ""
  Image : Option Sitemap.Image := none
  PubDate : String := ""
  PubDateParsed : Option Int := none
  Extensions : Option (List String) := none
deriving DecidableEq, Repr

/-- `sitemap.Feed` (src/sitemap/feed.go). -/
structure Feed where
  Title : String := ""
  Items : List Item := []
  Language : String := ""
  Version : String := ""
deriving DecidableEq, Repr

end Sitemap

/-- Modelled from the spec: the opaque extension capability
(`shared.ParseExtension`, not under src/): given the current accumulator and
a namespace-qualified element (cursor just past its start tag), it consumes
the element and returns an updated accumulator; the payload recorded is
opaque, modelled here by the element's name. -/
def parseExtension (acc : List String) (n : String) (ts : List Tok) :
    Except String (List String × List Tok) :=
  match skipSub ts 1 with
  | .error e => .error e
  | .ok ts' => .ok (acc ++ [n], ts')

namespace Sitemap

/-- `Parser.parseVersion` (src/sitemap/parse.go): the version literal read
off the root token. -/
def parseVersion (cur : Tok) : String :=
  match cur with
  | .start n attrs _ =>
    if strLower n = "urlset" then
      if attrLookup attrs "xmlns" = "http://www.sitemaps.org/schemas/sitemap/0.9" then
        "0.9"
      else "unknow"
    else "unknow"
  | _ => "unknow"

/-- The `for` loop of `Parser.parsePublication` (src/sitemap/parse.go):
iterate over child tags of a `publication` element, filling a `News`;
returns the token that broke the loop together with the rest of the
stream. -/
def parsePublicationGo (nw : News) (ts : List Tok) :
    Except String (News × Tok × List Tok) :=
  match h : nextTag ts with
  | .error e => .error e
  | .ok (.stop n, ts') => .ok (nw, .stop n, ts')
  | .ok (.txt _, _) => .error "unexpected text event"
  | .ok (.start n _ _, ts') =>
    if strLower n = "name" then
      match hpt : parseText ts' with
      | .error e => .error e
      | .ok (s, ts'') => parsePublicationGo { nw with Name := s } ts''
    else if strLower n = "language" then
      match hpt : parseText ts' with
      | .error e => .error e
      | .ok (s, ts'') => parsePublicationGo { nw with Language := s } ts''
    else
      match hs : skipSub ts' 1 with
      | .error e => .error e
      | .ok ts'' => parsePublicationGo nw ts''
termination_by ts.length
decreasing_by
  · exact Nat.lt_trans (parseText_length hpt) (nextTag_length h)
  · exact Nat.lt_trans (parseText_length hpt) (nextTag_length h)
  · exact Nat.lt_trans (skipSub_length hs) (nextTag_length h)

theorem parsePublicationGo_length_aux :
    ∀ (N : Nat) (nw : News) (ts : List Tok) (r : News × Tok × List Tok),
      ts.length ≤ N → parsePublicationGo nw ts = .ok r → r.2.2.length < ts.length := by
  intro N
  induction N with
  | zero =>
    intro nw ts r hle h
    have hts : ts = [] := by
      cases ts with
      | nil => rfl
      | cons a l => simp at hle
    subst hts
    rw [parsePublicationGo] at h
    split at h
    · exact Except.noConfusion h
    all_goals
      next heq => simp [nextTag] at heq
  | succ N ihN =>
    intro nw ts r hle h
    rw [parsePublicationGo] at h
    split at h
    · exact Except.noConfusion h
    next heq => cases h; exact nextTag_length heq
    next heq => exact Except.noConfusion h
    next n a e ts' heq =>
      have hlt := nextTag_length heq
      split at h
      · split at h
        · exact Except.noConfusion h
        next s ts'' hpt =>
          have h2 := parseText_length hpt
          exact Nat.lt_trans (ihN _ _ _ (by omega) h) (Nat.lt_trans h2 hlt)
      · split at h
        · split at h
          · exact Except.noConfusion h
          next s ts'' hpt =>
            have h2 := parseText_length hpt
            exact Nat.lt_trans (ihN _ _ _ (by omega) h) (Nat.lt_trans h2 hlt)
        · split at h
          · exact Except.noConfusion h
          next ts'' hs =>
            have h2 := skipSub_length hs
            exact Nat.lt_trans (ihN _ _ _ (by omega) h) (Nat.lt_trans h2 hlt)

theorem parsePublicationGo_length {nw : News} {ts : List Tok} {r : News × Tok × List Tok}
    (h : parsePublicationGo nw ts = .ok r) : r.2.2.length < ts.length :=
  parsePublicationGo_length_aux ts.length nw ts r (Nat.le_refl _) h

/-- `Parser.parsePublication` (src/sitemap/parse.go): expect the start tag,
run the loop, expect the end tag. -/
def parsePublication (cur : Tok) (ts : List Tok) : Except String (News × List Tok) :=
  match expectTok cur true "publication" with
  | .error e => .error e
  | .ok _ =>
    match parsePublicationGo {} ts with
    | .error e => .error e
    | .ok (nw, brk, ts') =>
      match expectTok brk false "publication" with
      | .error e => .error e
      | .ok _ => .ok (nw, ts')

theorem parsePublication_length {cur : Tok} {ts : List Tok} {r : News × List Tok}
    (h : parsePublication cur ts = .ok r) : r.2.length < ts.length := by
  rw [parsePublication] at h
  split at h
  · exact Except.noConfusion h
  · split at h
    · exact Except.noConfusion h
    next nw brk ts' hgo =>
      split at h
      · exact Except.noConfusion h
      · cases h; exact parsePublicationGo_length hgo

/-- The `for` loop of `Parser.parseNews` (src/sitemap/parse.go): iterate
over child tags of a `news` element, filling a `News`. -/
def parseNewsGo (nw : News) (ts : List Tok) : Except String (News × Tok × List Tok) :=
  match h : nextTag ts with
  | .error e => .error e
  | .ok (.stop n, ts') => .ok (nw, .stop n, ts')
  | .ok (.txt _, _) => .error "unexpected text event"
  | .ok (.start n a e, ts') =>
    if strLower n = "publication" then
      match hp : parsePublication (.start n a e) ts' with
      | .error e2 => .error e2
      | .ok (result, ts'') =>
          parseNewsGo { nw with Name := result.Name, Language := result.Language } ts''
    else if strLower n = "publication_date" then
      match hpt : parseText ts' with
      | .error e2 => .error e2
      | .ok (s, ts'') => parseNewsGo { nw with PublicationDate := s } ts''
    else if strLower n = "title" then
      match hpt : parseText ts' with
      | .error e2 => .error e2
      | .ok (s, ts'') => parseNewsGo { nw with Title := s } ts''
    else
      match hs : skipSub ts' 1 with
      | .error e2 => .error e2
      | .ok ts'' => parseNewsGo nw ts''
termination_by ts.length
decreasing_by
  · exact Nat.lt_trans (parsePublication_length hp) (nextTag_length h)
  · exact Nat.lt_trans (parseText_length hpt) (nextTag_length h)
  · exact Nat.lt_trans (parseText_length hpt) (nextTag_length h)
  · exact Nat.lt_trans (skipSub_length hs) (nextTag_length h)

/-- `Parser.parseNews` (src/sitemap/parse.go). -/
def parseNews (cur : Tok) (ts : List Tok) : Except String (News × List Tok) :=
  match expectTok cur true "news" with
  | .error e => .error e
  | .ok _ =>
    match parseNewsGo {} ts with
    | .error e => .error e
    | .ok (nw, brk, ts') =>
      match expectTok brk false "news" with
      | .error e => .error e
      | .ok _ => .ok (nw, ts')

theorem parseNewsGo_length_aux :
    ∀ (N : Nat) (nw : News) (ts : List Tok) (r : News × Tok × List Tok),
      ts.length ≤ N → parseNewsGo nw ts = .ok r → r.2.2.length < ts.length := by
  intro N
  induction N with
  | zero =>
    intro nw ts r hle h
    have hts : ts = [] := by
      cases ts with
      | nil => rfl
      | cons a l => simp at hle
    subst hts
    rw [parseNewsGo] at h
    split at h
    · exact Except.noConfusion h
    all_goals
      next heq => simp [nextTag] at heq
  | succ N ihN =>
    intro nw ts r hle h
    rw [parseNewsGo] at h
    split at h
    · exact Except.noConfusion h
    next heq => cases h; exact nextTag_length heq
    next heq => exact Except.noConfusion h
    next n a e ts' heq =>
      have hlt := nextTag_length heq
      split at h
      · split at h
        · exact Except.noConfusion h
        next result ts'' hp =>
          have h2 : ts''.length < ts'.length := parsePublication_length hp
          exact Nat.lt_trans (ihN _ _ _ (by omega) h) (Nat.lt_trans h2 hlt)
      · split at h
        · split at h
          · exact Except.noConfusion h
          next s ts'' hpt =>
            have h2 := parseText_length hpt
            exact Nat.lt_trans (ihN _ _ _ (by omega) h) (Nat.lt_trans h2 hlt)
        · split at h
          · split at h
            · exact Except.noConfusion h
            next s ts'' hpt =>
              have h2 := parseText_length hpt
              exact Nat.lt_trans (ihN _ _ _ (by omega) h) (Nat.lt_trans h2 hlt)
          · split at h
            · exact Except.noConfusion h
            next ts'' hs =>
              have h2 := skipSub_length hs
              exact Nat.lt_trans (ihN _ _ _ (by omega) h) (Nat.lt_trans h2 hlt)

theorem parseNewsGo_length {nw : News} {ts : List Tok} {r : News × Tok × List Tok}
    (h : parseNewsGo nw ts = .ok r) : r.2.2.length < ts.length :=
  parseNewsGo_length_aux ts.length nw ts r (Nat.le_refl _) h

theorem parseNews_length {cur : Tok} {ts : List Tok} {r : News × List Tok}
    (h : parseNews cur ts = .ok r) : r.2.length < ts.length := by
  rw [parseNews] at h
  split at h
  · exact Except.noConfusion h
  · split at h
    · exact Except.noConfusion h
    next nw brk ts' hgo =>
      split at h
      · exact Except.noConfusion h
      · cases h; exact parseNewsGo_length hgo

/-- The `for` loop of `Parser.parseImage` (src/sitemap/parse.go): iterate
over child tags of an `image` element, filling an `Image`. -/
def parseImageGo (img : Image) (ts : List Tok) : Except String (Image × Tok × List Tok) :=
  match h : nextTag ts with
  | .error e => .error e
  | .ok (.stop n, ts') => .ok (img, .stop n, ts')
  | .ok (.txt _, _) => .error "unexpected text event"
  | .ok (.start n _ _, ts') =>
    if strLower n = "loc" then
      match hpt : parseText ts' with
      | .error e2 => .error e2
      | .ok (s, ts'') => parseImageGo { img with Link := s } ts''
    else
      match hs : skipSub ts' 1 with
      | .error e2 => .error e2
      | .ok ts'' => parseImageGo img ts''
termination_by ts.length
decreasing_by
  · exact Nat.lt_trans (parseText_length hpt) (nextTag_length h)
  · exact Nat.lt_trans (skipSub_length hs) (nextTag_length h)

/-- `Parser.parseImage` (src/sitemap/parse.go). -/
def parseImage (cur : Tok) (ts : List Tok) : Except String (Image × List Tok) :=
  match expectTok cur true "image" with
  | .error e => .error e
  | .ok _ =>
    match parseImageGo {} ts with
    | .error e => .error e
    | .ok (img, brk, ts') =>
      match expectTok brk false "image" with
      | .error e => .error e
      | .ok _ => .ok (img, ts')

theorem parseImageGo_length_aux :
    ∀ (N : Nat) (img : Image) (ts : List Tok) (r : Image × Tok × List Tok),
      ts.length ≤ N → parseImageGo img ts = .ok r → r.2.2.length < ts.length := by
  intro N
  induction N with
  | zero =>
    intro img ts r hle h
    have hts : ts = [] := by
      cases ts with
      | nil => rfl
      | cons a l => simp at hle
    subst hts
    rw [parseImageGo] at h
    split at h
    · exact Except.noConfusion h
    all_goals
      next heq => simp [nextTag] at heq
  | succ N ihN =>
    intro img ts r hle h
    rw [parseImageGo] at h
    split at h
    · exact Except.noConfusion h
    next heq => cases h; exact nextTag_length heq
    next heq => exact Except.noConfusion h
    next n a e ts' heq =>
      have hlt := nextTag_length heq
      split at h
      · split at h
        · exact Except.noConfusion h
        next s ts'' hpt =>
          have h2 := parseText_length hpt
          exact Nat.lt_trans (ihN _ _ _ (by omega) h) (Nat.lt_trans h2 hlt)
      · split at h
        · exact Except.noConfusion h
        next ts'' hs =>
          have h2 := skipSub_length hs
          exact Nat.lt_trans (ihN _ _ _ (by omega) h) (Nat.lt_trans h2 hlt)

theorem parseImageGo_length {img : Image} {ts : List Tok} {r : Image × Tok × List Tok}
    (h : parseImageGo img ts = .ok r) : r.2.2.length < ts.length :=
  parseImageGo_length_aux ts.length img ts r (Nat.le_refl _) h

theorem parseImage_length {cur : Tok} {ts : List Tok} {r : Image × List Tok}
    (h : parseImage cur ts = .ok r) : r.2.length < ts.length := by
  rw [parseImage] at h
  split at h
  · exact Except.noConfusion h
  · split at h
    · exact Except.noConfusion h
    next img brk ts' hgo =>
      split at h
      · exact Except.noConfusion h
      · cases h; exact parseImageGo_length hgo

end Sitemap

theorem parseExtension_length {acc : List String} {n : String} {ts : List Tok}
    {r : List String × List Tok}
    (h : parseExtension acc n ts = .ok r) : r.2.length < ts.length := by
  rw [parseExtension] at h
  split at h
  · exact Except.noConfusion h
  next ts' hs => cases h; exact skipSub_length hs

namespace Sitemap

/-- The `for` loop of `Parser.parseItem` (src/sitemap/parse.go): iterate
over child tags of a `url` element.  The state carries the `Item`, the
bubbled-up `Feed` hints, and the extension accumulator (`extensions` in the
source, aliased by every `item.Extensions` assignment since Go maps are
references).  Note the duplicate-`loc` branch: when `Link` is already
non-empty the source does `continue` without consuming the duplicate
element, so the cursor stays just inside it. -/
def parseItemGo (item : Item) (fd : Feed) (acc : List String) (ts : List Tok) :
    Except String ((Item × Feed × List String) × Tok × List Tok) :=
  match h : nextTag ts with
  | .error e => .error e
  | .ok (.stop n, ts') => .ok ((item, fd, acc), .stop n, ts')
  | .ok (.txt _, _) => .error "unexpected text event"
  | .ok (.start n a e, ts') =>
    if e then
      match hx : parseExtension acc n ts' with
      | .error e2 => .error e2
      | .ok (acc', ts'') => parseItemGo { item with Extensions := some acc' } fd acc' ts''
    else if strLower n = "news" then
      match hnw : parseNews (.start n a e) ts' with
      | .error e2 => .error e2
      | .ok (result, ts'') =>
        let item1 := { item with Title := result.Title, PubDate := result.PublicationDate }
        let item2 := match parseDate result.PublicationDate with
          | some d => { item1 with PubDateParsed := some (timeUTC d) }
          | none => item1
        parseItemGo item2 { fd with Title := result.Name, Language := result.Language } acc ts''
    else if strLower n = "loc" then
      if 0 < item.Link.length then
        parseItemGo item fd acc ts'
      else
        match hpt : parseText ts' with
        | .error e2 => .error e2
        | .ok (s, ts'') => parseItemGo { item with Link := s } fd acc ts''
    else if strLower n = "image" then
      match him : parseImage (.start n a e) ts' with
      | .error e2 => .error e2
      | .ok (result, ts'') => parseItemGo { item with Image := some result } fd acc ts''
    else
      match hs : skipSub ts' 1 with
      | .error e2 => .error e2
      | .ok ts'' => parseItemGo item fd acc ts''
termination_by ts.length
decreasing_by
  · exact Nat.lt_trans (parseExtension_length hx) (nextTag_length h)
  · exact Nat.lt_trans (parseNews_length hnw) (nextTag_length h)
  · exact nextTag_length h
  · exact Nat.lt_trans (parseText_length hpt) (nextTag_length h)
  · exact Nat.lt_trans (parseImage_length him) (nextTag_length h)
  · exact Nat.lt_trans (skipSub_length hs) (nextTag_length h)

/-- `Parser.parseItem` (src/sitemap/parse.go): expect `url`, run the loop,
publish a non-empty extension accumulator, expect the end of `url`, and
return the `Item` together with the bubbled-up `Feed` hints. -/
def parseItem (cur : Tok) (ts : List Tok) : Except String (Item × Feed × List Tok) :=
  match expectTok cur true "url" with
  | .error e => .error e
  | .ok _ =>
    match parseItemGo {} {} [] ts with
    | .error e => .error e
    | .ok ((item, fd, acc), brk, ts') =>
      let item := if 0 < acc.length then { item with Extensions := some acc } else item
      match expectTok brk false "url" with
      | .error e => .error e
      | .ok _ => .ok (item, fd, ts')

theorem parseItemGo_length_aux :
    ∀ (N : Nat) (item : Item) (fd : Feed) (acc : List String) (ts : List Tok)
      (r : (Item × Feed × List String) × Tok × List Tok),
      ts.length ≤ N → parseItemGo item fd acc ts = .ok r → r.2.2.length < ts.length := by
  intro N
  induction N with
  | zero =>
    intro item fd acc ts r hle h
    have hts : ts = [] := by
      cases ts with
      | nil => rfl
      | cons a l => simp at hle
    subst hts
    rw [parseItemGo] at h
    split at h
    · exact Except.noConfusion h
    all_goals
      next heq => simp [nextTag] at heq
  | succ N ihN =>
    intro item fd acc ts r hle h
    rw [parseItemGo] at h
    split at h
    · exact Except.noConfusion h
    next heq => cases h; exact nextTag_length heq
    next heq => exact Except.noConfusion h
    next n a e ts' heq =>
      have hlt := nextTag_length heq
      split at h
      · split at h
        · exact Except.noConfusion h
        next acc2 ts'' hx =>
          have h2 : ts''.length < ts'.length := parseExtension_length hx
          exact Nat.lt_trans (ihN _ _ _ _ _ (by omega) h) (Nat.lt_trans h2 hlt)
      · split at h
        · split at h
          · exact Except.noConfusion h
          next result ts'' hnw =>
            have h2 : ts''.length < ts'.length := parseNews_length hnw
            exact Nat.lt_trans (ihN _ _ _ _ _ (by omega) h) (Nat.lt_trans h2 hlt)
        · split at h
          · split at h
            · exact Nat.lt_trans (ihN _ _ _ _ _ (by omega) h) hlt
            · split at h
              · exact Except.noConfusion h
              next s ts'' hpt =>
                have h2 : ts''.length < ts'.length := parseText_length hpt
                exact Nat.lt_trans (ihN _ _ _ _ _ (by omega) h) (Nat.lt_trans h2 hlt)
          · split at h
            · split at h
              · exact Except.noConfusion h
              next result ts'' him =>
                have h2 : ts''.length < ts'.length := parseImage_length him
                exact Nat.lt_trans (ihN _ _ _ _ _ (by omega) h) (Nat.lt_trans h2 hlt)
            · split at h
              · exact Except.noConfusion h
              next ts'' hs =>
                have h2 : ts''.length < ts'.length := skipSub_length hs
                exact Nat.lt_trans (ihN _ _ _ _ _ (by omega) h) (Nat.lt_trans h2 hlt)

theorem parseItemGo_length {item : Item} {fd : Feed} {acc : List String} {ts : List Tok}
    {r : (Item × Feed × List String) × Tok × List Tok}
    (h : parseItemGo item fd acc ts = .ok r) : r.2.2.length < ts.length :=
  parseItemGo_length_aux ts.length item fd acc ts r (Nat.le_refl _) h

theorem parseItem_length {cur : Tok} {ts : List Tok} {r : Item × Feed × List Tok}
    (h : parseItem cur ts = .ok r) : r.2.2.length < ts.length := by
  rw [parseItem] at h
  split at h
  · exact Except.noConfusion h
  · split at h
    · exact Except.noConfusion h
    next item fd acc brk ts' hgo =>
      cases hbr : expectTok brk false "url" with
      | error e =>
        simp only [hbr] at h
        exact Except.noConfusion h
      | ok u =>
        simp only [hbr] at h
        cases h
        exact parseItemGo_length hgo

/-- The `for` loop of `Parser.parseRoot` (src/sitemap/parse.go): iterate
over the children of `urlset`, skipping root-level extension elements,
parsing each `url` into an `Item`, and skipping everything else.  `ch`
models the `channel` pointer; the source initializes it to a fresh
non-nil `&Feed{}`, so the `channel == nil` adoption branch (which would
copy the bubbled-up Title/Language or their fallback literals into the
feed) is unreachable; translating it here, the `none` arm builds the
adopted feed the assignments would have produced. -/
def parseRootGo (ch : Option Feed) (items : List Item) (ts : List Tok) :
    Except String (Option Feed × List Item × Tok × List Tok) :=
  match h : nextTag ts with
  | .error e => .error e
  | .ok (.stop n, ts') => .ok (ch, items, .stop n, ts')
  | .ok (.txt _, _) => .error "unexpected text event"
  | .ok (.start n a e, ts') =>
    if e then
      match hs : skipSub ts' 1 with
      | .error e2 => .error e2
      | .ok ts'' => parseRootGo ch items ts''
    else if strLower n = "url" then
      match hi : parseItem (.start n a e) ts' with
      | .error e2 => .error e2
      | .ok (item, fd, ts'') =>
        let items' := items ++ [item]
        let ch' := match ch with
          | none => some { Title := if fd.Title ≠ "" then fd.Title else "unkonow",
                           Language := if fd.Language ≠ "" then fd.Language else "unknow" }
          | some c => some c
        parseRootGo ch' items' ts''
    else
      match hs : skipSub ts' 1 with
      | .error e2 => .error e2
      | .ok ts'' => parseRootGo ch items ts''
termination_by ts.length
decreasing_by
  · exact Nat.lt_trans (skipSub_length hs) (nextTag_length h)
  · exact Nat.lt_trans (parseItem_length hi) (nextTag_length h)
  · exact Nat.lt_trans (skipSub_length hs) (nextTag_length h)

/-- `Parser.parseRoot` (src/sitemap/parse.go): expect `urlset`, read the
version off the root tag, run the loop with the non-nil `channel := &Feed{}`
and empty item list, expect the closing `urlset`, and assemble the feed. -/
def parseRoot (cur : Tok) (ts : List Tok) : Except String Feed :=
  match expectTok cur true "urlset" with
  | .error e => .error e
  | .ok _ =>
    let ver := parseVersion cur
    match parseRootGo (some {}) [] ts with
    | .error e => .error e
    | .ok (ch, items, brk, _) =>
      match expectTok brk false "urlset" with
      | .error e => .error e
      | .ok _ =>
        let c := match ch with
          | none => ({ Items := [] } : Feed)
          | some c => c
        let c := if 0 < items.length then { c with Items := c.Items ++ items } else c
        .ok { c with Version := ver }

/-- `sitemap.Parser.Parse` (src/sitemap/parse.go): find the document root
and parse it as a `urlset`. -/
def Parse (ts : List Tok) : Except String Feed :=
  match findRoot ts with
  | .error e => .error e
  | .ok (root, ts') => parseRoot root ts'

end Sitemap

namespace Uni

/-- `FeedType` (src/parser.go): the detectable feed dialects. -/
inductive FeedType where
  | FeedTypeUnknown
  | FeedTypeAtom
  | FeedTypeRSS
  | FeedTypeSitemap
deriving DecidableEq, Repr

/-- `DetectFeedType` (src/parser.go): classify a stream by its root
element's lower-cased name; any failure to find a root, and any
unrecognized root, yields `FeedTypeUnknown` — never an error. -/
def DetectFeedType (ts : List Tok) : FeedType :=
  match findRoot ts with
  | .error _ => .FeedTypeUnknown
  | .ok (.start n _ _, _) =>
    match strLower n with
    | "rdf" => .FeedTypeRSS
    | "rss" => .FeedTypeRSS
    | "feed" => .FeedTypeAtom
    | "urlset" => .FeedTypeSitemap
    | _ => .FeedTypeUnknown
  | .ok _ => .FeedTypeUnknown

/-- Modelled from the spec: the canonical (dialect-neutral) Item with
fields `title, link, image, pubDate, pubDateParsed, extensions`
(gofeed.Item is not under src/). -/
structure Item where
  Title : String := ""
  Link : String := ""
  Image : Option Sitemap.Image := none
  PubDate : String := ""
  PubDateParsed : Option Int := none
  Extensions : Option (List String) := none
deriving DecidableEq, Repr

/-- Modelled from the spec: the canonical Feed with fields
`title, items, language, version` (gofeed.Feed is not under src/). -/
structure Feed where
  Title : String := ""
  Items : List Item := []
  Language : String := ""
  Version : String := ""
deriving DecidableEq, Repr

/-- Modelled from the spec: the default Sitemap translator, a pure
field-for-field mapping of the dialect tree into the canonical model
(`DefaultSitemapTranslator` is not under src/). -/
def defaultSitemapTranslate (f : Sitemap.Feed) : Feed :=
  { Title := f.Title
    Items := f.Items.map (fun it =>
      { Title := it.Title, Link := it.Link, Image := it.Image, PubDate := it.PubDate,
        PubDateParsed := it.PubDateParsed, Extensions := it.Extensions })
    Language := f.Language
    Version := f.Version }

/-- `http.Transport` as configured by `Parser.httpClientWithProxy`
(src/parser.go): the proxy host together with the fixed TLS-handshake and
expect-continue timeouts; time units are the spec's "time-units". -/
structure Transport where
  TLSHandshakeTimeout : Nat := 0
  ExpectContinueTimeout : Nat := 0
  ProxyHost : String := ""
deriving DecidableEq, Repr

/-- `http.Client` as configured by the lazy client getters
(src/parser.go): a timeout and an optional custom transport (`none` is the
default no-proxy transport). -/
structure HTTPClient where
  Timeout : Nat := 0
  Transport : Option Uni.Transport := none
deriving DecidableEq, Repr

/-- `gofeed.Parser` (src/parser.go): the universal parser's mutable
fields used by the parse pipeline — the lazily installed Sitemap
translator and the lazily installed HTTP client.  (The RSS/Atom
sub-parsers and translators are not under src/; the pipeline below takes
their composed behavior as parameters.) -/
structure Parser where
  SitemapTranslator : Option (Sitemap.Feed → Feed) := none
  Client : Option HTTPClient := none

/-- `Parser.sitemapTrans` (src/parser.go): return the configured Sitemap
translator, lazily installing the default one on first use. -/
def sitemapTrans (f : Parser) : (Sitemap.Feed → Feed) × Parser :=
  match f.SitemapTranslator with
  | some t => (t, f)
  | none => (defaultSitemapTranslate, { f with SitemapTranslator := some defaultSitemapTranslate })

/-- The error outcomes of `Parser.Parse` (src/parser.go): the detection
failure `errors.New("Failed to detect feed type")`, or an error propagated
from a sub-parser/translator. -/
inductive UniError where
  | detectFailed
  | subError (msg : String)
deriving DecidableEq, Repr

/-- `Parser.Parse` (src/parser.go): detect the feed type on the (replayed)
stream and dispatch to the matching sub-parser; `ap` and `rp` are the
composed Atom and RSS parse-and-translate paths (their packages are not
under src/); the Sitemap path runs the embedded Sitemap parser and the
lazily installed translator.  Returns the result together with the
possibly updated parser state. -/
def Parse (ap rp : List Tok → Except String Feed) (f : Parser) (ts : List Tok) :
    Except UniError Feed × Parser :=
  match DetectFeedType ts with
  | .FeedTypeAtom =>
    (match ap ts with
     | .ok r => (.ok r, f)
     | .error e => (.error (.subError e), f))
  | .FeedTypeRSS =>
    (match rp ts with
     | .ok r => (.ok r, f)
     | .error e => (.error (.subError e), f))
  | .FeedTypeSitemap =>
    (match Sitemap.Parse ts with
     | .error e => (.error (.subError e), f)
     | .ok sf =>
       let (t, f') := sitemapTrans f
       (.ok (t sf), f'))
  | .FeedTypeUnknown => (.error .detectFailed, f)

/-- `Parser.httpClient` (src/parser.go): return the configured HTTP
client, lazily installing a default client (15 time-unit timeout, default
transport) if none is set. -/
def httpClient (f : Parser) : HTTPClient × Parser :=
  match f.Client with
  | some c => (c, f)
  | none =>
    let c : HTTPClient := { Timeout := 15 }
    (c, { f with Client := some c })

/-- `Parser.httpClientWithProxy` (src/parser.go): if a client is already
set, return it unchanged (ignoring the requested proxy); otherwise install
a client whose transport proxies through `uRLProxy`. -/
def httpClientWithProxy (uRLProxy : String) (f : Parser) : HTTPClient × Parser :=
  match f.Client with
  | some c => (c, f)
  | none =>
    let c : HTTPClient :=
      { Timeout := 15
        Transport := some { TLSHandshakeTimeout := 10, ExpectContinueTimeout := 1,
                            ProxyHost := uRLProxy } }
    (c, { f with Client := some c })

end Uni

/-! ## A family of well-nested documents

`Node` generates the token stream of a well-nested XML subtree; the claim
theorems quantify over documents built from such subtrees. -/

/-- A well-nested XML subtree. -/
inductive Node where
  | elem (name : String) (attrs : List (String × String)) (isExt : Bool) (kids : List Node)
  | txt (s : String)

mutual

/-- The token stream of one subtree. -/
def toks : Node → List Tok
  | .elem n a e ks => .start n a e :: (toksL ks ++ [.stop n])
  | .txt s => [.txt s]

/-- The token stream of a sibling list. -/
def toksL : List Node → List Tok
  | [] => []
  | k :: ks => toks k ++ toksL ks

end

mutual

theorem skipSub_toks : ∀ (k : Node) (rest : List Tok) (d : Nat), 1 ≤ d →
    skipSub (toks k ++ rest) d = skipSub rest d
  | .elem n a e ks, rest, d, hd => by
      simp only [toks, List.cons_append, List.append_assoc, List.singleton_append,
        List.nil_append]
      rw [skipSub]
      rw [skipSub_toksL ks (.stop n :: rest) (d + 1) (by omega)]
      rw [skipSub]
      rw [if_neg (by omega)]
      have hd1 : d + 1 - 1 = d := by omega
      rw [hd1]
  | .txt s, rest, d, _ => by
      simp only [toks, List.cons_append, List.nil_append]
      rw [skipSub]

theorem skipSub_toksL : ∀ (ks : List Node) (rest : List Tok) (d : Nat), 1 ≤ d →
    skipSub (toksL ks ++ rest) d = skipSub rest d
  | [], rest, d, _ => by simp only [toksL, List.nil_append]
  | k :: ks, rest, d, hd => by
      simp only [toksL, List.append_assoc]
      rw [skipSub_toks k (toksL ks ++ rest) d hd, skipSub_toksL ks rest d hd]

end

/-- Skipping an element whose start tag was just consumed lands right
after its end tag. -/
theorem skipSub_elem (ks : List Node) (n : String) (rest : List Tok) :
    skipSub (toksL ks ++ .stop n :: rest) 1 = .ok rest := by
  have h := skipSub_toksL ks (.stop n :: rest) 1 (Nat.le_refl 1)
  rw [h, skipSub, if_pos (Nat.le_refl 1)]

/-- Concatenation of a list of strings (the text a `read-text` over the
corresponding text runs yields). -/
def sjoin : List String → String
  | [] => ""
  | s :: ss => s ++ sjoin ss

/-- Text runs as subtrees. -/
def txtNodes (ss : List String) : List Node := ss.map Node.txt

theorem parseText_txtNodes (ss : List String) (n : String) (rest : List Tok) :
    parseText (toksL (txtNodes ss) ++ .stop n :: rest) = .ok (sjoin ss, rest) := by
  induction ss with
  | nil => simp [txtNodes, toksL, parseText, sjoin]
  | cons s ss ih =>
    simp only [txtNodes, List.map_cons, toksL, toks, List.cons_append, List.nil_append,
      List.append_assoc]
    rw [parseText]
    simp only [txtNodes] at ih
    rw [ih]
    rfl

/-! ## Step equations for the parser loops

One lemma per (loop, significant head token) pair; these let the
correspondence proofs below walk a generated document child by child
without unfolding the well-founded recursions by hand. -/

theorem parsePublicationGo_stop (nw : Sitemap.News) (n : String) (T : List Tok) :
    Sitemap.parsePublicationGo nw (.stop n :: T) = .ok (nw, .stop n, T) := by
  rw [Sitemap.parsePublicationGo]
  rfl

theorem parsePublicationGo_txt (nw : Sitemap.News) (s : String) (T : List Tok) :
    Sitemap.parsePublicationGo nw (.txt s :: T) = Sitemap.parsePublicationGo nw T := by
  rw [Sitemap.parsePublicationGo]
  conv_rhs => rw [Sitemap.parsePublicationGo]
  rfl

theorem parsePublicationGo_name {n : String} (hn : strLower n = "name")
    (nw : Sitemap.News) (a : List (String × String)) (e : Bool) {T T' : List Tok} {s : String}
    (hpt : parseText T = .ok (s, T')) :
    Sitemap.parsePublicationGo nw (.start n a e :: T)
      = Sitemap.parsePublicationGo { nw with Name := s } T' := by
  rw [Sitemap.parsePublicationGo]
  simp only [nextTag]
  rw [if_pos hn]
  split
  next e2 heq => rw [hpt] at heq; exact Except.noConfusion heq
  next s2 T2 heq =>
    rw [hpt] at heq
    cases heq
    rfl

theorem parsePublicationGo_language {n : String} (hn1 : ¬strLower n = "name")
    (hn2 : strLower n = "language")
    (nw : Sitemap.News) (a : List (String × String)) (e : Bool) {T T' : List Tok} {s : String}
    (hpt : parseText T = .ok (s, T')) :
    Sitemap.parsePublicationGo nw (.start n a e :: T)
      = Sitemap.parsePublicationGo { nw with Language := s } T' := by
  rw [Sitemap.parsePublicationGo]
  simp only [nextTag]
  rw [if_neg hn1, if_pos hn2]
  split
  next e2 heq => rw [hpt] at heq; exact Except.noConfusion heq
  next s2 T2 heq =>
    rw [hpt] at heq
    cases heq
    rfl

theorem parsePublicationGo_other {n : String} (hn1 : ¬strLower n = "name")
    (hn2 : ¬strLower n = "language")
    (nw : Sitemap.News) (a : List (String × String)) (e : Bool) {T T' : List Tok}
    (hs : skipSub T 1 = .ok T') :
    Sitemap.parsePublicationGo nw (.start n a e :: T)
      = Sitemap.parsePublicationGo nw T' := by
  rw [Sitemap.parsePublicationGo]
  simp only [nextTag]
  rw [if_neg hn1, if_neg hn2]
  split
  next e2 heq => rw [hs] at heq; exact Except.noConfusion heq
  next T2 heq =>
    rw [hs] at heq
    cases heq
    rfl

theorem parseNewsGo_stop (nw : Sitemap.News) (n : String) (T : List Tok) :
    Sitemap.parseNewsGo nw (.stop n :: T) = .ok (nw, .stop n, T) := by
  rw [Sitemap.parseNewsGo]
  rfl

theorem parseNewsGo_txt (nw : Sitemap.News) (s : String) (T : List Tok) :
    Sitemap.parseNewsGo nw (.txt s :: T) = Sitemap.parseNewsGo nw T := by
  rw [Sitemap.parseNewsGo]
  conv_rhs => rw [Sitemap.parseNewsGo]
  rfl

theorem parseNewsGo_publication {n : String} (hn : strLower n = "publication")
    (nw : Sitemap.News) (a : List (String × String)) (e : Bool) {T T' : List Tok}
    {result : Sitemap.News}
    (hp : Sitemap.parsePublication (.start n a e) T = .ok (result, T')) :
    Sitemap.parseNewsGo nw (.start n a e :: T)
      = Sitemap.parseNewsGo { nw with Name := result.Name, Language := result.Language } T' := by
  rw [Sitemap.parseNewsGo]
  simp only [nextTag]
  rw [if_pos hn]
  split
  next e2 heq => rw [hp] at heq; exact Except.noConfusion heq
  next r2 T2 heq =>
    rw [hp] at heq
    cases heq
    rfl

theorem parseNewsGo_pubdate {n : String} (hn1 : ¬strLower n = "publication")
    (hn2 : strLower n = "publication_date")
    (nw : Sitemap.News) (a : List (String × String)) (e : Bool) {T T' : List Tok} {s : String}
    (hpt : parseText T = .ok (s, T')) :
    Sitemap.parseNewsGo nw (.start n a e :: T)
      = Sitemap.parseNewsGo { nw with PublicationDate := s } T' := by
  rw [Sitemap.parseNewsGo]
  simp only [nextTag]
  rw [if_neg hn1, if_pos hn2]
  split
  next e2 heq => rw [hpt] at heq; exact Except.noConfusion heq
  next s2 T2 heq =>
    rw [hpt] at heq
    cases heq
    rfl

theorem parseNewsGo_title {n : String} (hn1 : ¬strLower n = "publication")
    (hn2 : ¬strLower n = "publication_date") (hn3 : strLower n = "title")
    (nw : Sitemap.News) (a : List (String × String)) (e : Bool) {T T' : List Tok} {s : String}
    (hpt : parseText T = .ok (s, T')) :
    Sitemap.parseNewsGo nw (.start n a e :: T)
      = Sitemap.parseNewsGo { nw with Title := s } T' := by
  rw [Sitemap.parseNewsGo]
  simp only [nextTag]
  rw [if_neg hn1, if_neg hn2, if_pos hn3]
  split
  next e2 heq => rw [hpt] at heq; exact Except.noConfusion heq
  next s2 T2 heq =>
    rw [hpt] at heq
    cases heq
    rfl

theorem parseNewsGo_other {n : String} (hn1 : ¬strLower n = "publication")
    (hn2 : ¬strLower n = "publication_date") (hn3 : ¬strLower n = "title")
    (nw : Sitemap.News) (a : List (String × String)) (e : Bool) {T T' : List Tok}
    (hs : skipSub T 1 = .ok T') :
    Sitemap.parseNewsGo nw (.start n a e :: T) = Sitemap.parseNewsGo nw T' := by
  rw [Sitemap.parseNewsGo]
  simp only [nextTag]
  rw [if_neg hn1, if_neg hn2, if_neg hn3]
  split
  next e2 heq => rw [hs] at heq; exact Except.noConfusion heq
  next T2 heq =>
    rw [hs] at heq
    cases heq
    rfl

theorem parseImageGo_stop (img : Sitemap.Image) (n : String) (T : List Tok) :
    Sitemap.parseImageGo img (.stop n :: T) = .ok (img, .stop n, T) := by
  rw [Sitemap.parseImageGo]
  rfl

theorem parseImageGo_txt (img : Sitemap.Image) (s : String) (T : List Tok) :
    Sitemap.parseImageGo img (.txt s :: T) = Sitemap.parseImageGo img T := by
  rw [Sitemap.parseImageGo]
  conv_rhs => rw [Sitemap.parseImageGo]
  rfl

theorem parseImageGo_loc {n : String} (hn : strLower n = "loc")
    (img : Sitemap.Image) (a : List (String × String)) (e : Bool) {T T' : List Tok} {s : String}
    (hpt : parseText T = .ok (s, T')) :
    Sitemap.parseImageGo img (.start n a e :: T)
      = Sitemap.parseImageGo { img with Link := s } T' := by
  rw [Sitemap.parseImageGo]
  simp only [nextTag]
  rw [if_pos hn]
  split
  next e2 heq => rw [hpt] at heq; exact Except.noConfusion heq
  next s2 T2 heq =>
    rw [hpt] at heq
    cases heq
    rfl

theorem parseImageGo_other {n : String} (hn : ¬strLower n = "loc")
    (img : Sitemap.Image) (a : List (String × String)) (e : Bool) {T T' : List Tok}
    (hs : skipSub T 1 = .ok T') :
    Sitemap.parseImageGo img (.start n a e :: T) = Sitemap.parseImageGo img T' := by
  rw [Sitemap.parseImageGo]
  simp only [nextTag]
  rw [if_neg hn]
  split
  next e2 heq => rw [hs] at heq; exact Except.noConfusion heq
  next T2 heq =>
    rw [hs] at heq
    cases heq
    rfl

theorem parseItemGo_stop (item : Sitemap.Item) (fd : Sitemap.Feed) (acc : List String)
    (n : String) (T : List Tok) :
    Sitemap.parseItemGo item fd acc (.stop n :: T) = .ok ((item, fd, acc), .stop n, T) := by
  rw [Sitemap.parseItemGo]
  rfl

theorem parseItemGo_txt (item : Sitemap.Item) (fd : Sitemap.Feed) (acc : List String)
    (s : String) (T : List Tok) :
    Sitemap.parseItemGo item fd acc (.txt s :: T) = Sitemap.parseItemGo item fd acc T := by
  rw [Sitemap.parseItemGo]
  conv_rhs => rw [Sitemap.parseItemGo]
  rfl

theorem parseItemGo_ext {e : Bool} (he : e = true)
    (item : Sitemap.Item) (fd : Sitemap.Feed) (acc : List String)
    (n : String) (a : List (String × String)) {T T' : List Tok} {acc2 : List String}
    (hx : parseExtension acc n T = .ok (acc2, T')) :
    Sitemap.parseItemGo item fd acc (.start n a e :: T)
      = Sitemap.parseItemGo { item with Extensions := some acc2 } fd acc2 T' := by
  rw [Sitemap.parseItemGo]
  simp only [nextTag]
  rw [if_pos he]
  split
  next e2 heq => rw [hx] at heq; exact Except.noConfusion heq
  next a2 T2 heq =>
    rw [hx] at heq
    cases heq
    rfl

theorem parseItemGo_news {e : Bool} (he : ¬e = true) {n : String} (hn : strLower n = "news")
    (item : Sitemap.Item) (fd : Sitemap.Feed) (acc : List String)
    (a : List (String × String)) {T T' : List Tok} {result : Sitemap.News}
    (hnw : Sitemap.parseNews (.start n a e) T = .ok (result, T')) :
    Sitemap.parseItemGo item fd acc (.start n a e :: T)
      = Sitemap.parseItemGo
          (match parseDate result.PublicationDate with
           | some d =>
               { item with
                   Title := result.Title
                   PubDate := result.PublicationDate
                   PubDateParsed := some (timeUTC d) }
           | none =>
               { item with
                   Title := result.Title
                   PubDate := result.PublicationDate })
          { fd with Title := result.Name, Language := result.Language } acc T' := by
  rw [Sitemap.parseItemGo]
  simp only [nextTag]
  rw [if_neg he, if_pos hn]
  split
  next e2 heq => rw [hnw] at heq; exact Except.noConfusion heq
  next r2 T2 heq =>
    rw [hnw] at heq
    cases heq
    rfl

theorem parseItemGo_loc_dup {e : Bool} (he : ¬e = true) {n : String} (hn1 : ¬strLower n = "news")
    (hn2 : strLower n = "loc")
    {item : Sitemap.Item} (hlink : 0 < item.Link.length)
    (fd : Sitemap.Feed) (acc : List String) (a : List (String × String)) (T : List Tok) :
    Sitemap.parseItemGo item fd acc (.start n a e :: T)
      = Sitemap.parseItemGo item fd acc T := by
  rw [Sitemap.parseItemGo]
  simp only [nextTag]
  rw [if_neg he, if_neg hn1, if_pos hn2, if_pos hlink]

theorem parseItemGo_loc_take {e : Bool} (he : ¬e = true) {n : String} (hn1 : ¬strLower n = "news")
    (hn2 : strLower n = "loc")
    {item : Sitemap.Item} (hlink : ¬0 < item.Link.length)
    (fd : Sitemap.Feed) (acc : List String) (a : List (String × String))
    {T T' : List Tok} {s : String}
    (hpt : parseText T = .ok (s, T')) :
    Sitemap.parseItemGo item fd acc (.start n a e :: T)
      = Sitemap.parseItemGo { item with Link := s } fd acc T' := by
  rw [Sitemap.parseItemGo]
  simp only [nextTag]
  rw [if_neg he, if_neg hn1, if_pos hn2, if_neg hlink]
  split
  next e2 heq => rw [hpt] at heq; exact Except.noConfusion heq
  next s2 T2 heq =>
    rw [hpt] at heq
    cases heq
    rfl

theorem parseItemGo_image {e : Bool} (he : ¬e = true) {n : String} (hn1 : ¬strLower n = "news")
    (hn2 : ¬strLower n = "loc") (hn3 : strLower n = "image")
    (item : Sitemap.Item) (fd : Sitemap.Feed) (acc : List String)
    (a : List (String × String)) {T T' : List Tok} {result : Sitemap.Image}
    (him : Sitemap.parseImage (.start n a e) T = .ok (result, T')) :
    Sitemap.parseItemGo item fd acc (.start n a e :: T)
      = Sitemap.parseItemGo { item with Image := some result } fd acc T' := by
  rw [Sitemap.parseItemGo]
  simp only [nextTag]
  rw [if_neg he, if_neg hn1, if_neg hn2, if_pos hn3]
  split
  next e2 heq => rw [him] at heq; exact Except.noConfusion heq
  next r2 T2 heq =>
    rw [him] at heq
    cases heq
    rfl

theorem parseItemGo_other {e : Bool} (he : ¬e = true) {n : String} (hn1 : ¬strLower n = "news")
    (hn2 : ¬strLower n = "loc") (hn3 : ¬strLower n = "image")
    (item : Sitemap.Item) (fd : Sitemap.Feed) (acc : List String)
    (a : List (String × String)) {T T' : List Tok}
    (hs : skipSub T 1 = .ok T') :
    Sitemap.parseItemGo item fd acc (.start n a e :: T)
      = Sitemap.parseItemGo item fd acc T' := by
  rw [Sitemap.parseItemGo]
  simp only [nextTag]
  rw [if_neg he, if_neg hn1, if_neg hn2, if_neg hn3]
  split
  next e2 heq => rw [hs] at heq; exact Except.noConfusion heq
  next T2 heq =>
    rw [hs] at heq
    cases heq
    rfl

theorem parseRootGo_stop (ch : Option Sitemap.Feed) (items : List Sitemap.Item)
    (n : String) (T : List Tok) :
    Sitemap.parseRootGo ch items (.stop n :: T) = .ok (ch, items, .stop n, T) := by
  rw [Sitemap.parseRootGo]
  rfl

theorem parseRootGo_txt (ch : Option Sitemap.Feed) (items : List Sitemap.Item)
    (s : String) (T : List Tok) :
    Sitemap.parseRootGo ch items (.txt s :: T) = Sitemap.parseRootGo ch items T := by
  rw [Sitemap.parseRootGo]
  conv_rhs => rw [Sitemap.parseRootGo]
  rfl

theorem parseRootGo_ext {e : Bool} (he : e = true)
    (ch : Option Sitemap.Feed) (items : List Sitemap.Item)
    (n : String) (a : List (String × String)) {T T' : List Tok}
    (hs : skipSub T 1 = .ok T') :
    Sitemap.parseRootGo ch items (.start n a e :: T) = Sitemap.parseRootGo ch items T' := by
  rw [Sitemap.parseRootGo]
  simp only [nextTag]
  rw [if_pos he]
  split
  next e2 heq => rw [hs] at heq; exact Except.noConfusion heq
  next T2 heq =>
    rw [hs] at heq
    cases heq
    rfl

theorem parseRootGo_url {e : Bool} (he : ¬e = true) {n : String} (hn : strLower n = "url")
    (ch : Option Sitemap.Feed) (items : List Sitemap.Item)
    (a : List (String × String)) {T T' : List Tok}
    {item : Sitemap.Item} {fd : Sitemap.Feed}
    (hi : Sitemap.parseItem (.start n a e) T = .ok (item, fd, T')) :
    Sitemap.parseRootGo ch items (.start n a e :: T)
      = Sitemap.parseRootGo
          (match ch with
           | none => some { Title := if fd.Title ≠ "" then fd.Title else "unkonow",
                            Language := if fd.Language ≠ "" then fd.Language else "unknow" }
           | some c => some c)
          (items ++ [item]) T' := by
  rw [Sitemap.parseRootGo]
  simp only [nextTag]
  rw [if_neg he, if_pos hn]
  split
  next e2 heq => rw [hi] at heq; exact Except.noConfusion heq
  next i2 f2 T2 heq =>
    rw [hi] at heq
    cases heq
    rfl

theorem parseRootGo_other {e : Bool} (he : ¬e = true) {n : String} (hn : ¬strLower n = "url")
    (ch : Option Sitemap.Feed) (items : List Sitemap.Item)
    (a : List (String × String)) {T T' : List Tok}
    (hs : skipSub T 1 = .ok T') :
    Sitemap.parseRootGo ch items (.start n a e :: T) = Sitemap.parseRootGo ch items T' := by
  rw [Sitemap.parseRootGo]
  simp only [nextTag]
  rw [if_neg he, if_neg hn]
  split
  next e2 heq => rw [hs] at heq; exact Except.noConfusion heq
  next T2 heq =>
    rw [hs] at heq
    cases heq
    rfl

/-! ## Structured document family

Typed children for each element the Sitemap extractor recognizes, with
well-formedness conditions under which the extraction succeeds, and the
per-child reference semantics the correspondence lemmas compare the
extractor against. -/

/-- Children of a `publication` element. -/
inductive PubChild where
  | nameEl (ss : List String)
  | languageEl (ss : List String)
  | otherEl (n : String) (a : List (String × String)) (ks : List Node)
  | textRun (s : String)

/-- Children of a `news` element. -/
inductive NewsChild where
  | publicationEl (ps : List PubChild)
  | pubDateEl (ss : List String)
  | titleEl (ss : List String)
  | otherEl (n : String) (a : List (String × String)) (ks : List Node)
  | textRun (s : String)

/-- Children of an `image` element. -/
inductive ImgChild where
  | locEl (ss : List String)
  | otherEl (n : String) (a : List (String × String)) (ks : List Node)
  | textRun (s : String)

/-- Children of a `url` element. -/
inductive UrlChild where
  | newsEl (ns : List NewsChild)
  | locEl (ss : List String)
  | imageEl (cs : List ImgChild)
  | extEl (n : String) (a : List (String × String)) (ks : List Node)
  | otherEl (n : String) (a : List (String × String)) (ks : List Node)
  | textRun (s : String)

/-- Children of the `urlset` root. -/
inductive Entry where
  | urlEl (cs : List UrlChild)
  | extEl (n : String) (a : List (String × String)) (ks : List Node)
  | otherEl (n : String) (a : List (String × String)) (ks : List Node)
  | textRun (s : String)

def PubChild.node : PubChild → Node
  | .nameEl ss => .elem "name" [] false (txtNodes ss)
  | .languageEl ss => .elem "language" [] false (txtNodes ss)
  | .otherEl n a ks => .elem n a false ks
  | .textRun s => .txt s

def NewsChild.node : NewsChild → Node
  | .publicationEl ps => .elem "publication" [] false (ps.map PubChild.node)
  | .pubDateEl ss => .elem "publication_date" [] false (txtNodes ss)
  | .titleEl ss => .elem "title" [] false (txtNodes ss)
  | .otherEl n a ks => .elem n a false ks
  | .textRun s => .txt s

def ImgChild.node : ImgChild → Node
  | .locEl ss => .elem "loc" [] false (txtNodes ss)
  | .otherEl n a ks => .elem n a false ks
  | .textRun s => .txt s

def UrlChild.node : UrlChild → Node
  | .newsEl ns => .elem "news" [] false (ns.map NewsChild.node)
  | .locEl ss => .elem "loc" [] false (txtNodes ss)
  | .imageEl cs => .elem "image" [] false (cs.map ImgChild.node)
  | .extEl n a ks => .elem n a true ks
  | .otherEl n a ks => .elem n a false ks
  | .textRun s => .txt s

def Entry.node : Entry → Node
  | .urlEl cs => .elem "url" [] false (cs.map UrlChild.node)
  | .extEl n a ks => .elem n a true ks
  | .otherEl n a ks => .elem n a false ks
  | .textRun s => .txt s

/-- An unrecognized child may not collide with a recognized tag name. -/
def PubChild.wf : PubChild → Bool
  | .otherEl n _ _ => !(strLower n == "name" || strLower n == "language")
  | _ => true

def NewsChild.wf : NewsChild → Bool
  | .publicationEl ps => ps.all PubChild.wf
  | .otherEl n _ _ =>
      !(strLower n == "publication" || strLower n == "publication_date" ||
        strLower n == "title")
  | _ => true

def ImgChild.wf : ImgChild → Bool
  | .locEl _ => true
  | .otherEl n _ _ => !(strLower n == "loc")
  | .textRun _ => true

def UrlChild.wf : UrlChild → Bool
  | .newsEl ns => ns.all NewsChild.wf
  | .imageEl cs => cs.all ImgChild.wf
  | .otherEl n _ _ => !(strLower n == "news" || strLower n == "loc" || strLower n == "image")
  | _ => true

/-- A `loc` child may only occur while `Item.Link` is still empty — the
extractor's duplicate-`loc` `continue` otherwise desynchronizes the cursor
and the item parse fails (see `C3`). -/
def urlNoDupLoc (link : String) : List UrlChild → Bool
  | [] => true
  | .locEl ss :: cs => (link == "") && urlNoDupLoc (sjoin ss) cs
  | _ :: cs => urlNoDupLoc link cs

def Entry.wf : Entry → Bool
  | .urlEl cs => cs.all UrlChild.wf && urlNoDupLoc "" cs
  | .otherEl n _ _ => !(strLower n == "url")
  | _ => true

/-- Reference semantics of one `publication` child. -/
def pubUpd (nw : Sitemap.News) : PubChild → Sitemap.News
  | .nameEl ss => { nw with Name := sjoin ss }
  | .languageEl ss => { nw with Language := sjoin ss }
  | .otherEl _ _ _ => nw
  | .textRun _ => nw

/-- Reference result of a whole `publication` element. -/
def pubOf (ps : List PubChild) : Sitemap.News := ps.foldl pubUpd {}

/-- Reference semantics of one `news` child. -/
def newsUpd (nw : Sitemap.News) : NewsChild → Sitemap.News
  | .publicationEl ps => { nw with Name := (pubOf ps).Name, Language := (pubOf ps).Language }
  | .pubDateEl ss => { nw with PublicationDate := sjoin ss }
  | .titleEl ss => { nw with Title := sjoin ss }
  | .otherEl _ _ _ => nw
  | .textRun _ => nw

/-- Reference result of a whole `news` element. -/
def newsOf (ns : List NewsChild) : Sitemap.News := ns.foldl newsUpd {}

/-- Reference semantics of one `image` child. -/
def imgUpd (img : Sitemap.Image) : ImgChild → Sitemap.Image
  | .locEl ss => { img with Link := sjoin ss }
  | .otherEl _ _ _ => img
  | .textRun _ => img

/-- Reference result of a whole `image` element. -/
def imgOf (cs : List ImgChild) : Sitemap.Image := cs.foldl imgUpd {}

/-- Reference semantics of one `url` child over the item state. -/
def itemUpd : (Sitemap.Item × Sitemap.Feed × List String) → UrlChild →
    (Sitemap.Item × Sitemap.Feed × List String)
  | (item, fd, acc), .newsEl ns =>
    (match parseDate (newsOf ns).PublicationDate with
     | some d =>
         { item with
             Title := (newsOf ns).Title
             PubDate := (newsOf ns).PublicationDate
             PubDateParsed := some (timeUTC d) }
     | none =>
         { item with
             Title := (newsOf ns).Title
             PubDate := (newsOf ns).PublicationDate },
     { fd with Title := (newsOf ns).Name, Language := (newsOf ns).Language }, acc)
  | (item, fd, acc), .locEl ss =>
    if 0 < item.Link.length then (item, fd, acc)
    else ({ item with Link := sjoin ss }, fd, acc)
  | (item, fd, acc), .imageEl cs => ({ item with Image := some (imgOf cs) }, fd, acc)
  | (item, fd, acc), .extEl n _ _ =>
    ({ item with Extensions := some (acc ++ [n]) }, fd, acc ++ [n])
  | st, .otherEl _ _ _ => st
  | st, .textRun _ => st

/-- Reference result of a whole `url` element: the item (with its
extension accumulator published when non-empty) and the bubbled-up feed
hints. -/
def itemOf (cs : List UrlChild) : Sitemap.Item × Sitemap.Feed :=
  match cs.foldl itemUpd ({}, {}, []) with
  | (item, fd, acc) =>
    (if 0 < acc.length then { item with Extensions := some acc } else item, fd)

/-- Reference semantics of one `urlset` child over the root state. -/
def rootUpd : (Option Sitemap.Feed × List Sitemap.Item) → Entry →
    (Option Sitemap.Feed × List Sitemap.Item)
  | (ch, items), .urlEl cs =>
    (match ch with
     | none => some { Title := if (itemOf cs).2.Title ≠ "" then (itemOf cs).2.Title
                               else "unkonow"
                      Language := if (itemOf cs).2.Language ≠ "" then (itemOf cs).2.Language
                                  else "unknow" }
     | some c => some c,
     items ++ [(itemOf cs).1])
  | st, .extEl _ _ _ => st
  | st, .otherEl _ _ _ => st
  | st, .textRun _ => st

/-- The item a root entry contributes, if any. -/
def entryItem : Entry → Option Sitemap.Item
  | .urlEl cs => some (itemOf cs).1
  | _ => none

/-- The token stream of a whole `urlset` document. -/
def docToks (attrs : List (String × String)) (es : List Entry) : List Tok :=
  toks (.elem "urlset" attrs false (es.map Entry.node))

/-! ## Correspondence: the extractor on a generated document computes the
reference semantics -/

theorem expectTok_start_self (n : String) (a : List (String × String)) (e : Bool) :
    expectTok (.start n a e) true n = .ok () := by
  simp [expectTok]

theorem expectTok_stop_self (n : String) : expectTok (.stop n) false n = .ok () := by
  simp [expectTok]

theorem parseExtension_run (acc : List String) (n : String) (ks : List Node)
    (rest : List Tok) :
    parseExtension acc n (toksL ks ++ .stop n :: rest) = .ok (acc ++ [n], rest) := by
  rw [parseExtension, skipSub_elem]

theorem parsePublicationGo_run (ps : List PubChild) :
    ∀ (nw : Sitemap.News) (rest : List Tok), ps.all PubChild.wf = true →
    Sitemap.parsePublicationGo nw (toksL (ps.map PubChild.node) ++ .stop "publication" :: rest)
      = .ok (ps.foldl pubUpd nw, .stop "publication", rest) := by
  induction ps with
  | nil =>
    intro nw rest _
    simp only [List.map_nil, toksL, List.nil_append, List.foldl_nil]
    exact parsePublicationGo_stop nw _ rest
  | cons c ps ih =>
    intro nw rest hwf
    rw [List.all_cons, Bool.and_eq_true] at hwf
    obtain ⟨hc, hps⟩ := hwf
    cases c with
    | nameEl ss =>
      simp only [List.map_cons, toksL, PubChild.node, toks, List.cons_append,
        List.append_assoc, List.singleton_append, List.nil_append, List.foldl_cons, pubUpd]
      rw [parsePublicationGo_name (by decide) nw [] false (parseText_txtNodes ss "name" _)]
      exact ih _ _ hps
    | languageEl ss =>
      simp only [List.map_cons, toksL, PubChild.node, toks, List.cons_append,
        List.append_assoc, List.singleton_append, List.nil_append, List.foldl_cons, pubUpd]
      rw [parsePublicationGo_language (by decide) (by decide) nw [] false
        (parseText_txtNodes ss "language" _)]
      exact ih _ _ hps
    | otherEl n a ks =>
      simp only [PubChild.wf, Bool.not_or, Bool.and_eq_true, Bool.not_eq_true',
        beq_eq_false_iff_ne, ne_eq] at hc
      simp only [List.map_cons, toksL, PubChild.node, toks, List.cons_append,
        List.append_assoc, List.singleton_append, List.nil_append, List.foldl_cons, pubUpd]
      rw [parsePublicationGo_other hc.1 hc.2 nw a false (skipSub_elem ks n _)]
      exact ih _ _ hps
    | textRun str =>
      simp only [List.map_cons, toksL, PubChild.node, toks, List.cons_append,
        List.append_assoc, List.singleton_append, List.nil_append, List.foldl_cons, pubUpd]
      rw [parsePublicationGo_txt]
      exact ih _ _ hps

theorem parsePublication_run (ps : List PubChild) (a : List (String × String)) (e : Bool)
    (rest : List Tok) (hwf : ps.all PubChild.wf = true) :
    Sitemap.parsePublication (.start "publication" a e)
        (toksL (ps.map PubChild.node) ++ .stop "publication" :: rest)
      = .ok (pubOf ps, rest) := by
  rw [Sitemap.parsePublication, expectTok_start_self,
      parsePublicationGo_run ps {} rest hwf]
  simp [expectTok, pubOf]

theorem parseNewsGo_run (ns : List NewsChild) :
    ∀ (nw : Sitemap.News) (rest : List Tok), ns.all NewsChild.wf = true →
    Sitemap.parseNewsGo nw (toksL (ns.map NewsChild.node) ++ .stop "news" :: rest)
      = .ok (ns.foldl newsUpd nw, .stop "news", rest) := by
  induction ns with
  | nil =>
    intro nw rest _
    simp only [List.map_nil, toksL, List.nil_append, List.foldl_nil]
    exact parseNewsGo_stop nw _ rest
  | cons c ns ih =>
    intro nw rest hwf
    rw [List.all_cons, Bool.and_eq_true] at hwf
    obtain ⟨hc, hns⟩ := hwf
    cases c with
    | publicationEl ps =>
      simp only [NewsChild.wf] at hc
      simp only [List.map_cons, toksL, NewsChild.node, toks, List.cons_append,
        List.append_assoc, List.singleton_append, List.nil_append, List.foldl_cons, newsUpd]
      rw [parseNewsGo_publication (by decide) nw [] false
        (parsePublication_run ps [] false _ hc)]
      exact ih _ _ hns
    | pubDateEl ss =>
      simp only [List.map_cons, toksL, NewsChild.node, toks, List.cons_append,
        List.append_assoc, List.singleton_append, List.nil_append, List.foldl_cons, newsUpd]
      rw [parseNewsGo_pubdate (by decide) (by decide) nw [] false
        (parseText_txtNodes ss "publication_date" _)]
      exact ih _ _ hns
    | titleEl ss =>
      simp only [List.map_cons, toksL, NewsChild.node, toks, List.cons_append,
        List.append_assoc, List.singleton_append, List.nil_append, List.foldl_cons, newsUpd]
      rw [parseNewsGo_title (by decide) (by decide) (by decide) nw [] false
        (parseText_txtNodes ss "title" _)]
      exact ih _ _ hns
    | otherEl n a ks =>
      simp only [NewsChild.wf, Bool.not_or, Bool.and_eq_true, Bool.not_eq_true',
        beq_eq_false_iff_ne, ne_eq] at hc
      simp only [List.map_cons, toksL, NewsChild.node, toks, List.cons_append,
        List.append_assoc, List.singleton_append, List.nil_append, List.foldl_cons, newsUpd]
      rw [parseNewsGo_other hc.1.1 hc.1.2 hc.2 nw a false (skipSub_elem ks n _)]
      exact ih _ _ hns
    | textRun str =>
      simp only [List.map_cons, toksL, NewsChild.node, toks, List.cons_append,
        List.append_assoc, List.singleton_append, List.nil_append, List.foldl_cons, newsUpd]
      rw [parseNewsGo_txt]
      exact ih _ _ hns

theorem parseNews_run (ns : List NewsChild) (a : List (String × String)) (e : Bool)
    (rest : List Tok) (hwf : ns.all NewsChild.wf = true) :
    Sitemap.parseNews (.start "news" a e)
        (toksL (ns.map NewsChild.node) ++ .stop "news" :: rest)
      = .ok (newsOf ns, rest) := by
  rw [Sitemap.parseNews, expectTok_start_self,
      parseNewsGo_run ns {} rest hwf]
  simp [expectTok, newsOf]

theorem parseImageGo_run (cs : List ImgChild) :
    ∀ (img : Sitemap.Image) (rest : List Tok), cs.all ImgChild.wf = true →
    Sitemap.parseImageGo img (toksL (cs.map ImgChild.node) ++ .stop "image" :: rest)
      = .ok (cs.foldl imgUpd img, .stop "image", rest) := by
  induction cs with
  | nil =>
    intro img rest _
    simp only [List.map_nil, toksL, List.nil_append, List.foldl_nil]
    exact parseImageGo_stop img _ rest
  | cons c cs ih =>
    intro img rest hwf
    rw [List.all_cons, Bool.and_eq_true] at hwf
    obtain ⟨hc, hcs⟩ := hwf
    cases c with
    | locEl ss =>
      simp only [List.map_cons, toksL, ImgChild.node, toks, List.cons_append,
        List.append_assoc, List.singleton_append, List.nil_append, List.foldl_cons, imgUpd]
      rw [parseImageGo_loc (by decide) img [] false (parseText_txtNodes ss "loc" _)]
      exact ih _ _ hcs
    | otherEl n a ks =>
      simp only [ImgChild.wf, Bool.not_eq_true', beq_eq_false_iff_ne, ne_eq] at hc
      simp only [List.map_cons, toksL, ImgChild.node, toks, List.cons_append,
        List.append_assoc, List.singleton_append, List.nil_append, List.foldl_cons, imgUpd]
      rw [parseImageGo_other hc img a false (skipSub_elem ks n _)]
      exact ih _ _ hcs
    | textRun str =>
      simp only [List.map_cons, toksL, ImgChild.node, toks, List.cons_append,
        List.append_assoc, List.singleton_append, List.nil_append, List.foldl_cons, imgUpd]
      rw [parseImageGo_txt]
      exact ih _ _ hcs

theorem parseImage_run (cs : List ImgChild) (a : List (String × String)) (e : Bool)
    (rest : List Tok) (hwf : cs.all ImgChild.wf = true) :
    Sitemap.parseImage (.start "image" a e)
        (toksL (cs.map ImgChild.node) ++ .stop "image" :: rest)
      = .ok (imgOf cs, rest) := by
  rw [Sitemap.parseImage, expectTok_start_self,
      parseImageGo_run cs {} rest hwf]
  simp [expectTok, imgOf]

theorem parseItemGo_run (cs : List UrlChild) :
    ∀ (item : Sitemap.Item) (fd : Sitemap.Feed) (acc : List String) (rest : List Tok),
      cs.all UrlChild.wf = true → urlNoDupLoc item.Link cs = true →
      Sitemap.parseItemGo item fd acc (toksL (cs.map UrlChild.node) ++ .stop "url" :: rest)
        = .ok (cs.foldl itemUpd (item, fd, acc), .stop "url", rest) := by
  induction cs with
  | nil =>
    intro item fd acc rest _ _
    simp only [List.map_nil, toksL, List.nil_append, List.foldl_nil]
    exact parseItemGo_stop item fd acc _ rest
  | cons c cs ih =>
    intro item fd acc rest hwf hdup
    rw [List.all_cons, Bool.and_eq_true] at hwf
    obtain ⟨hc, hcs⟩ := hwf
    cases c with
    | newsEl ns =>
      simp only [UrlChild.wf] at hc
      have hdup' : urlNoDupLoc item.Link cs = true := by
        simpa [urlNoDupLoc] using hdup
      simp only [List.map_cons, toksL, UrlChild.node, toks, List.cons_append,
        List.append_assoc, List.singleton_append, List.nil_append, List.foldl_cons, itemUpd]
      rw [parseItemGo_news (by decide) (by decide) item fd acc []
        (parseNews_run ns [] false _ hc)]
      exact ih _ _ _ _ hcs (by
        cases parseDate (newsOf ns).PublicationDate <;> simpa using hdup')
    | locEl ss =>
      simp only [urlNoDupLoc, Bool.and_eq_true, beq_iff_eq] at hdup
      obtain ⟨hlink0, hdup2⟩ := hdup
      have hl : ¬0 < item.Link.length := by simp [hlink0]
      simp only [List.map_cons, toksL, UrlChild.node, toks, List.cons_append,
        List.append_assoc, List.singleton_append, List.nil_append, List.foldl_cons, itemUpd]
      rw [parseItemGo_loc_take (by decide) (by decide) (by decide) hl fd acc []
        (parseText_txtNodes ss "loc" _)]
      rw [if_neg hl]
      exact ih _ _ _ _ hcs hdup2
    | imageEl cs2 =>
      simp only [UrlChild.wf] at hc
      have hdup' : urlNoDupLoc item.Link cs = true := by
        simpa [urlNoDupLoc] using hdup
      simp only [List.map_cons, toksL, UrlChild.node, toks, List.cons_append,
        List.append_assoc, List.singleton_append, List.nil_append, List.foldl_cons, itemUpd]
      rw [parseItemGo_image (by decide) (by decide) (by decide) (by decide) item fd acc []
        (parseImage_run cs2 [] false _ hc)]
      exact ih _ _ _ _ hcs hdup'
    | extEl n a ks =>
      have hdup' : urlNoDupLoc item.Link cs = true := by
        simpa [urlNoDupLoc] using hdup
      simp only [List.map_cons, toksL, UrlChild.node, toks, List.cons_append,
        List.append_assoc, List.singleton_append, List.nil_append, List.foldl_cons, itemUpd]
      rw [parseItemGo_ext rfl item fd acc n a (parseExtension_run acc n ks _)]
      exact ih _ _ _ _ hcs hdup'
    | otherEl n a ks =>
      simp only [UrlChild.wf, Bool.not_or, Bool.and_eq_true, Bool.not_eq_true',
        beq_eq_false_iff_ne, ne_eq] at hc
      have hdup' : urlNoDupLoc item.Link cs = true := by
        simpa [urlNoDupLoc] using hdup
      simp only [List.map_cons, toksL, UrlChild.node, toks, List.cons_append,
        List.append_assoc, List.singleton_append, List.nil_append, List.foldl_cons, itemUpd]
      rw [parseItemGo_other (by decide) hc.1.1 hc.1.2 hc.2 item fd acc a
        (skipSub_elem ks n _)]
      exact ih _ _ _ _ hcs hdup'
    | textRun str =>
      have hdup' : urlNoDupLoc item.Link cs = true := by
        simpa [urlNoDupLoc] using hdup
      simp only [List.map_cons, toksL, UrlChild.node, toks, List.cons_append,
        List.append_assoc, List.singleton_append, List.nil_append, List.foldl_cons, itemUpd]
      rw [parseItemGo_txt]
      exact ih _ _ _ _ hcs hdup'

theorem parseItem_run (cs : List UrlChild) (a : List (String × String)) (e : Bool)
    (rest : List Tok) (h1 : cs.all UrlChild.wf = true) (h2 : urlNoDupLoc "" cs = true) :
    Sitemap.parseItem (.start "url" a e)
        (toksL (cs.map UrlChild.node) ++ .stop "url" :: rest)
      = .ok ((itemOf cs).1, (itemOf cs).2, rest) := by
  rw [Sitemap.parseItem, expectTok_start_self,
      parseItemGo_run cs {} {} [] rest h1 h2]
  simp [expectTok, itemOf]

theorem parseRootGo_run (es : List Entry) :
    ∀ (ch : Option Sitemap.Feed) (items : List Sitemap.Item) (rest : List Tok),
      es.all Entry.wf = true →
      Sitemap.parseRootGo ch items (toksL (es.map Entry.node) ++ .stop "urlset" :: rest)
        = .ok ((es.foldl rootUpd (ch, items)).1, (es.foldl rootUpd (ch, items)).2,
               .stop "urlset", rest) := by
  induction es with
  | nil =>
    intro ch items rest _
    simp only [List.map_nil, toksL, List.nil_append, List.foldl_nil]
    exact parseRootGo_stop ch items _ rest
  | cons c es ih =>
    intro ch items rest hwf
    rw [List.all_cons, Bool.and_eq_true] at hwf
    obtain ⟨hc, hes⟩ := hwf
    cases c with
    | urlEl cs =>
      simp only [Entry.wf, Bool.and_eq_true] at hc
      simp only [List.map_cons, toksL, Entry.node, toks, List.cons_append,
        List.append_assoc, List.singleton_append, List.nil_append, List.foldl_cons, rootUpd]
      rw [parseRootGo_url (by decide) (by decide) ch items []
        (parseItem_run cs [] false _ hc.1 hc.2)]
      exact ih _ _ _ hes
    | extEl n a ks =>
      simp only [List.map_cons, toksL, Entry.node, toks, List.cons_append,
        List.append_assoc, List.singleton_append, List.nil_append, List.foldl_cons, rootUpd]
      rw [parseRootGo_ext rfl ch items n a (skipSub_elem ks n _)]
      exact ih _ _ _ hes
    | otherEl n a ks =>
      simp only [Entry.wf, Bool.not_eq_true', beq_eq_false_iff_ne, ne_eq] at hc
      simp only [List.map_cons, toksL, Entry.node, toks, List.cons_append,
        List.append_assoc, List.singleton_append, List.nil_append, List.foldl_cons, rootUpd]
      rw [parseRootGo_other (by decide) hc ch items a (skipSub_elem ks n _)]
      exact ih _ _ _ hes
    | textRun str =>
      simp only [List.map_cons, toksL, Entry.node, toks, List.cons_append,
        List.append_assoc, List.singleton_append, List.nil_append, List.foldl_cons, rootUpd]
      rw [parseRootGo_txt]
      exact ih _ _ _ hes

theorem rootUpd_channel (es : List Entry) :
    ∀ (c : Sitemap.Feed) (items : List Sitemap.Item),
      (es.foldl rootUpd (some c, items)).1 = some c := by
  induction es with
  | nil => intro c items; rfl
  | cons e es ih =>
    intro c items
    cases e with
    | urlEl cs => simpa [rootUpd] using ih c _
    | extEl n a ks => simpa [rootUpd] using ih c items
    | otherEl n a ks => simpa [rootUpd] using ih c items
    | textRun str => simpa [rootUpd] using ih c items

theorem rootUpd_items (es : List Entry) :
    ∀ (ch : Option Sitemap.Feed) (items : List Sitemap.Item),
      (es.foldl rootUpd (ch, items)).2 = items ++ es.filterMap entryItem := by
  induction es with
  | nil => intro ch items; simp
  | cons e es ih =>
    intro ch items
    cases e with
    | urlEl cs =>
      simp only [List.foldl_cons, rootUpd, List.filterMap_cons, entryItem]
      rw [ih]
      simp
    | extEl n a ks =>
      simp only [List.foldl_cons, rootUpd, List.filterMap_cons, entryItem]
      exact ih ch items
    | otherEl n a ks =>
      simp only [List.foldl_cons, rootUpd, List.filterMap_cons, entryItem]
      exact ih ch items
    | textRun str =>
      simp only [List.foldl_cons, rootUpd, List.filterMap_cons, entryItem]
      exact ih ch items

/-- The extractor on any well-formed generated `urlset` document: one item
per `url` entry, in document order; feed Title/Language left empty (the
adoption branch is dead); Version from the root's `xmlns` attribute. -/
theorem sitemapParse_doc (attrs : List (String × String)) (es : List Entry)
    (hwf : es.all Entry.wf = true) :
    Sitemap.Parse (docToks attrs es)
      = .ok { Title := "", Language := "",
              Items := es.filterMap entryItem,
              Version := if attrLookup attrs "xmlns"
                  = "http://www.sitemaps.org/schemas/sitemap/0.9" then "0.9"
                else "unknow" } := by
  rw [docToks]
  simp only [toks]
  rw [Sitemap.Parse]
  simp only [findRoot]
  rw [Sitemap.parseRoot, expectTok_start_self]
  have hrun := parseRootGo_run es (some {}) [] [] hwf
  simp only [List.append_nil] at hrun ⊢
  rw [hrun]
  simp only [expectTok, rootUpd_channel, rootUpd_items, List.nil_append]
  simp only [Sitemap.parseVersion]
  rw [if_pos (by decide : strLower "urlset" = "urlset")]
  by_cases hemp : 0 < (es.filterMap entryItem).length
  · simp [if_pos hemp]
  · have hnil : es.filterMap entryItem = [] := by
      cases hfm : es.filterMap entryItem with
      | nil => rfl
      | cons x xs => rw [hfm] at hemp; simp at hemp
    simp [if_neg hemp, hnil]

/-! ## Structural facts used by the claims -/

theorem findRoot_start {ts rest : List Tok} {t : Tok}
    (h : findRoot ts = .ok (t, rest)) : ∃ n a e, t = .start n a e := by
  induction ts with
  | nil => simp [findRoot] at h
  | cons hd tl ih =>
    cases hd with
    | start n a e =>
      simp only [findRoot, Except.ok.injEq, Prod.mk.injEq] at h
      exact ⟨n, a, e, h.1.symm⟩
    | stop n =>
      simp only [findRoot] at h
      exact ih h
    | txt s =>
      simp only [findRoot] at h
      exact ih h

theorem expectTok_start_ok {t : Tok} {nm : String} {u : Unit}
    (h : expectTok t true nm = .ok u) :
    ∃ n a e, t = .start n a e ∧ strLower n = strLower nm := by
  cases t with
  | start n a e =>
    simp only [expectTok] at h
    split at h
    next hc => exact ⟨n, a, e, rfl, hc⟩
    next hc => exact Except.noConfusion h
  | stop n => simp [expectTok] at h
  | txt s => simp [expectTok] at h

/-- Any successful Sitemap parse found a `urlset` root start tag and took
its `Version` from that tag's `xmlns` attribute: `"0.9"` for the sitemaps
namespace and the sentinel `"unknow"` otherwise. -/
theorem parse_version_char {ts : List Tok} {f : Sitemap.Feed}
    (h : Sitemap.Parse ts = .ok f) :
    ∃ n attrs e rest, findRoot ts = .ok (.start n attrs e, rest) ∧
      strLower n = "urlset" ∧
      f.Version = (if attrLookup attrs "xmlns"
          = "http://www.sitemaps.org/schemas/sitemap/0.9" then "0.9" else "unknow") := by
  rw [Sitemap.Parse] at h
  split at h
  · exact Except.noConfusion h
  next root rest hfr =>
    obtain ⟨n, a, e, hroot⟩ := findRoot_start hfr
    subst hroot
    refine ⟨n, a, e, rest, hfr, ?_⟩
    rw [Sitemap.parseRoot] at h
    split at h
    · exact Except.noConfusion h
    next u hex =>
      obtain ⟨n2, a2, e2, heq, hlow⟩ := expectTok_start_ok hex
      cases heq
      have hurl : strLower "urlset" = "urlset" := by decide
      rw [hurl] at hlow
      refine ⟨hlow, ?_⟩
      split at h
      · exact Except.noConfusion h
      next ch items brk rest2 hgo =>
        split at h
        · exact Except.noConfusion h
        next u2 hex2 =>
          cases h
          simp [Sitemap.parseVersion, hlow]

def Entry.isUrl : Entry → Bool
  | .urlEl _ => true
  | _ => false

def UrlChild.isExt : UrlChild → Bool
  | .extEl _ _ _ => true
  | _ => false

def UrlChild.isNews : UrlChild → Bool
  | .newsEl _ => true
  | _ => false

/-- Names of the extension elements among a url's children, in order. -/
def extNames (cs : List UrlChild) : List String :=
  cs.filterMap fun c => match c with
    | .extEl n _ _ => some n
    | _ => none

theorem entryItem_length (es : List Entry) :
    (es.filterMap entryItem).length = (es.filter Entry.isUrl).length := by
  induction es with
  | nil => rfl
  | cons e es ih =>
    cases e with
    | urlEl cs => simp [entryItem, Entry.isUrl, ih]
    | extEl n a ks => simp [entryItem, Entry.isUrl, ih]
    | otherEl n a ks => simp [entryItem, Entry.isUrl, ih]
    | textRun str => simp [entryItem, Entry.isUrl, ih]

theorem itemUpd_acc (cs : List UrlChild) :
    ∀ (st : Sitemap.Item × Sitemap.Feed × List String),
      (cs.foldl itemUpd st).2.2 = st.2.2 ++ extNames cs := by
  induction cs with
  | nil => intro st; simp [extNames]
  | cons c cs ih =>
    intro st
    obtain ⟨item, fd, acc⟩ := st
    cases c with
    | newsEl ns =>
      simp only [List.foldl_cons, itemUpd, extNames, List.filterMap_cons]
      cases parseDate (newsOf ns).PublicationDate <;>
        simpa [extNames] using ih _
    | locEl ss =>
      simp only [List.foldl_cons, itemUpd, extNames, List.filterMap_cons]
      by_cases hl : 0 < item.Link.length <;>
        simp only [hl, if_true, if_false, ite_true, ite_false] <;>
        simpa [extNames] using ih _
    | imageEl cs2 =>
      simp only [List.foldl_cons, itemUpd, extNames, List.filterMap_cons]
      simpa [extNames] using ih _
    | extEl n a ks =>
      simp only [List.foldl_cons, itemUpd, extNames, List.filterMap_cons]
      rw [ih _]
      simp [extNames]
    | otherEl n a ks =>
      simp only [List.foldl_cons, itemUpd, extNames, List.filterMap_cons]
      simpa [extNames] using ih _
    | textRun str =>
      simp only [List.foldl_cons, itemUpd, extNames, List.filterMap_cons]
      simpa [extNames] using ih _

theorem itemUpd_exts (cs : List UrlChild) :
    ∀ (item : Sitemap.Item) (fd : Sitemap.Feed) (acc : List String),
      (cs.foldl itemUpd (item, fd, acc)).1.Extensions
        = if extNames cs = [] then item.Extensions else some (acc ++ extNames cs) := by
  induction cs with
  | nil => intro item fd acc; simp [extNames]
  | cons c cs ih =>
    intro item fd acc
    cases c with
    | newsEl ns =>
      simp only [List.foldl_cons, itemUpd, extNames, List.filterMap_cons]
      cases parseDate (newsOf ns).PublicationDate <;>
        simpa [extNames] using ih _ _ acc
    | locEl ss =>
      simp only [List.foldl_cons, itemUpd, extNames, List.filterMap_cons]
      by_cases hl : 0 < item.Link.length <;>
        simp only [hl, if_true, if_false, ite_true, ite_false] <;>
        simpa [extNames] using ih _ _ acc
    | imageEl cs2 =>
      simp only [List.foldl_cons, itemUpd, extNames, List.filterMap_cons]
      simpa [extNames] using ih _ _ acc
    | extEl n a ks =>
      simp only [List.foldl_cons, itemUpd, extNames, List.filterMap_cons]
      rw [ih _ _ (acc ++ [n])]
      by_cases hx : extNames cs = []
      · simp [hx, extNames]
      · simp [hx, extNames]
    | otherEl n a ks =>
      simp only [List.foldl_cons, itemUpd, extNames, List.filterMap_cons]
      simpa [extNames] using ih _ _ acc
    | textRun str =>
      simp only [List.foldl_cons, itemUpd, extNames, List.filterMap_cons]
      simpa [extNames] using ih _ _ acc

theorem itemOf_exts (cs : List UrlChild) :
    (itemOf cs).1.Extensions = if extNames cs = [] then none else some (extNames cs) := by
  have hacc := itemUpd_acc cs ({}, {}, [])
  have hext := itemUpd_exts cs {} {} []
  simp only [List.nil_append] at hacc hext
  rw [itemOf]
  cases hfold : cs.foldl itemUpd ({}, {}, []) with
  | mk item p =>
    obtain ⟨fd, acc⟩ := p
    rw [hfold] at hacc hext
    simp only at hacc hext
    show (if 0 < acc.length then { item with Extensions := some acc } else item).Extensions
      = if extNames cs = [] then none else some (extNames cs)
    by_cases hx : extNames cs = []
    · have hacc0 : acc = [] := by rw [hacc, hx]
      subst hacc0
      rw [if_neg (by simp), if_pos hx, hext, if_pos hx]
    · have hlen : 0 < acc.length := by
        rw [hacc]
        cases hxx : extNames cs with
        | nil => exact absurd hxx hx
        | cons y ys => simp
      rw [if_pos hlen, if_neg hx, hacc]

theorem extNames_any (cs : List UrlChild) :
    (¬extNames cs = []) ↔ cs.any UrlChild.isExt = true := by
  induction cs with
  | nil => simp [extNames]
  | cons c cs ih =>
    cases c with
    | extEl n a ks => simp [extNames, UrlChild.isExt]
    | newsEl ns => simpa [extNames, UrlChild.isExt] using ih
    | locEl ss => simpa [extNames, UrlChild.isExt] using ih
    | imageEl cs2 => simpa [extNames, UrlChild.isExt] using ih
    | otherEl n2 a ks => simpa [extNames, UrlChild.isExt] using ih
    | textRun str => simpa [extNames, UrlChild.isExt] using ih

theorem itemUpd_no_news (cs : List UrlChild) (hn : cs.all (fun c => !UrlChild.isNews c) = true) :
    ∀ (st : Sitemap.Item × Sitemap.Feed × List String),
      (cs.foldl itemUpd st).1.Title = st.1.Title ∧
      (cs.foldl itemUpd st).1.PubDateParsed = st.1.PubDateParsed := by
  induction cs with
  | nil => intro st; exact ⟨rfl, rfl⟩
  | cons c cs ih =>
    rw [List.all_cons, Bool.and_eq_true] at hn
    intro st
    obtain ⟨item, fd, acc⟩ := st
    cases c with
    | newsEl ns => simp [UrlChild.isNews] at hn
    | locEl ss =>
      simp only [List.foldl_cons, itemUpd]
      by_cases hl : 0 < item.Link.length <;>
        simp only [hl, if_true, if_false, ite_true, ite_false] <;>
        simpa using ih hn.2 _
    | imageEl cs2 =>
      simp only [List.foldl_cons, itemUpd]
      simpa using ih hn.2 _
    | extEl n a ks =>
      simp only [List.foldl_cons, itemUpd]
      simpa using ih hn.2 _
    | otherEl n a ks =>
      simp only [List.foldl_cons, itemUpd]
      simpa using ih hn.2 _
    | textRun str =>
      simp only [List.foldl_cons, itemUpd]
      simpa using ih hn.2 _

theorem parseRootGo_url_err {e : Bool} (he : ¬e = true) {n : String} (hn : strLower n = "url")
    (ch : Option Sitemap.Feed) (items : List Sitemap.Item)
    (a : List (String × String)) {T : List Tok} {msg : String}
    (hi : Sitemap.parseItem (.start n a e) T = .error msg) :
    Sitemap.parseRootGo ch items (.start n a e :: T) = .error msg := by
  rw [Sitemap.parseRootGo]
  simp only [nextTag]
  rw [if_neg he, if_pos hn]
  split
  next e2 heq =>
    rw [hi] at heq
    cases heq
    rfl
  next i2 f2 T2 heq =>
    rw [hi] at heq
    exact Except.noConfusion heq

/-! ## Claims -/

/-- The C1 failing input: a urlset (with the sitemaps namespace) holding
one url whose news element supplies a publication name and language. -/
def c1doc : List Tok :=
  docToks [("xmlns", "http://www.sitemaps.org/schemas/sitemap/0.9")]
    [.urlEl [.newsEl [.publicationEl [.nameEl ["DailyNews"], .languageEl ["en"]]]]]

/-- C1: the claim says the feed-level Title/Language are adopted from the
first item's bubbled-up news Name/Language (with fallbacks "unkonow" and
"unknow").  The code initializes `channel := &Feed{}` (non-nil), so the
adoption branch guarded by `channel == nil` is dead: even though the news
element supplies Name "DailyNews" and Language "en", the returned feed has
Title = "" and Language = "". -/
theorem C1_feed_adoption_dead :
    Sitemap.Parse c1doc
      = .ok { Title := "", Language := "",
              Items := [{ Title := "", Link := "", Image := none, PubDate := "",
                          PubDateParsed := none, Extensions := none }],
              Version := "0.9" }
    ∧ (newsOf [.publicationEl [.nameEl ["DailyNews"], .languageEl ["en"]]]).Name
        = "DailyNews"
    ∧ (newsOf [.publicationEl [.nameEl ["DailyNews"], .languageEl ["en"]]]).Language
        = "en" := by
  refine ⟨?_, by decide, by decide⟩
  rw [c1doc, sitemapParse_doc _ _ (by decide)]
  simp +decide [entryItem, itemOf, itemUpd, newsOf, newsUpd, pubOf, pubUpd, sjoin,
    parseDate, attrLookup]

/-- The C2 counterexample input: a urlset with no `xmlns` attribute. -/
def c2doc : List Tok := docToks [] [.urlEl [.locEl ["http://a/"]]]

/-- The feed the parser returns for `c2doc`. -/
def c2feed : Sitemap.Feed :=
  { Title := "", Language := "",
    Items := [{ Title := "", Link := "http://a/", Image := none, PubDate := "",
                PubDateParsed := none, Extensions := none }],
    Version := "unknow" }

theorem c2doc_parses : Sitemap.Parse c2doc = .ok c2feed := by
  rw [c2doc, sitemapParse_doc _ _ (by decide)]
  simp +decide [c2feed, entryItem, itemOf, itemUpd, sjoin, attrLookup]

/-- C2 counterexample: for a missing namespace the parser's sentinel is the
literal "unknow", not the claimed "unknown". -/
theorem C2_counterexample :
    Sitemap.Parse c2doc = .ok c2feed ∧ c2feed.Version = "unknow"
      ∧ ¬c2feed.Version = "unknown" :=
  ⟨c2doc_parses, rfl, by decide⟩

/-- C2 (amended): for every successfully parsed Sitemap document the
Version is "0.9" exactly when the root's `xmlns` attribute is the sitemaps
namespace, and the sentinel "unknow" otherwise; it is never left unset. -/
theorem C2_version_amended {ts : List Tok} {f : Sitemap.Feed}
    (h : Sitemap.Parse ts = .ok f) :
    (f.Version = "0.9" ∨ f.Version = "unknow") ∧ ¬f.Version = "" ∧
    (∀ n attrs e rest, findRoot ts = .ok (.start n attrs e, rest) →
      (f.Version = "0.9" ↔ attrLookup attrs "xmlns"
          = "http://www.sitemaps.org/schemas/sitemap/0.9")) := by
  obtain ⟨n, attrs, e, rest, hfr, hlow, hv⟩ := parse_version_char h
  refine ⟨?_, ?_, ?_⟩
  · by_cases hx : attrLookup attrs "xmlns" = "http://www.sitemaps.org/schemas/sitemap/0.9"
    · left; rw [hv, if_pos hx]
    · right; rw [hv, if_neg hx]
  · by_cases hx : attrLookup attrs "xmlns" = "http://www.sitemaps.org/schemas/sitemap/0.9"
    · rw [hv, if_pos hx]; decide
    · rw [hv, if_neg hx]; decide
  · intro n2 a2 e2 r2 hfr2
    rw [hfr] at hfr2
    simp only [Except.ok.injEq, Prod.mk.injEq, Tok.start.injEq] at hfr2
    obtain ⟨⟨hn2, ha2, he2⟩, hr2⟩ := hfr2
    rw [← ha2]
    by_cases hx : attrLookup attrs "xmlns" = "http://www.sitemaps.org/schemas/sitemap/0.9"
    · rw [hv, if_pos hx]
      simp [hx]
    · rw [hv, if_neg hx]
      simp +decide [hx]

theorem C2_version_amended_witness :
    (c2feed.Version = "0.9" ∨ c2feed.Version = "unknow") ∧ ¬c2feed.Version = "" :=
  ⟨(C2_version_amended c2doc_parses).1, (C2_version_amended c2doc_parses).2.1⟩

/-- The C3 failing input: one url with two non-empty loc children. -/
def c3doc : List Tok :=
  toks (.elem "urlset" [("xmlns", "http://www.sitemaps.org/schemas/sitemap/0.9")] false
    [.elem "url" [] false
      [.elem "loc" [] false [.txt "http://a/"],
       .elem "loc" [] false [.txt "http://b/"]]])

/-- C3: the claim says a url with two loc children parses successfully and
keeps the first non-empty loc.  In the code the duplicate-loc branch does
`continue` without consuming the duplicate element, so the item loop breaks
at the inner `</loc>` and `Expect(EndTag, "url")` fails: the whole parse
aborts with a structural error instead of succeeding. -/
theorem C3_duplicate_loc_aborts :
    Sitemap.Parse c3doc = .error ("Expected EndTag " ++ "url") := by
  have hitem : Sitemap.parseItem (.start "url" [] false)
      [.start "loc" [] false, .txt "http://a/", .stop "loc",
       .start "loc" [] false, .txt "http://b/", .stop "loc",
       .stop "url", .stop "urlset"]
      = .error ("Expected EndTag " ++ "url") := by
    rw [Sitemap.parseItem, expectTok_start_self]
    rw [parseItemGo_loc_take (by decide) (by decide) (by decide) (by decide) {} [] []
      (show parseText [.txt "http://a/", .stop "loc",
          .start "loc" [] false, .txt "http://b/", .stop "loc", .stop "url", .stop "urlset"]
        = .ok ("http://a/", [.start "loc" [] false, .txt "http://b/", .stop "loc",
            .stop "url", .stop "urlset"]) from rfl)]
    rw [parseItemGo_loc_dup (by decide) (by decide) (by decide) (by decide) {} [] []]
    rw [parseItemGo_txt, parseItemGo_stop]
    rfl
  have hdoc : c3doc
      = .start "urlset" [("xmlns", "http://www.sitemaps.org/schemas/sitemap/0.9")] false
        :: .start "url" [] false
        :: [.start "loc" [] false, .txt "http://a/", .stop "loc",
            .start "loc" [] false, .txt "http://b/", .stop "loc",
            .stop "url", .stop "urlset"] := rfl
  rw [hdoc, Sitemap.Parse]
  simp only [findRoot]
  rw [Sitemap.parseRoot, expectTok_start_self,
      parseRootGo_url_err (by decide) (by decide) (some {}) [] [] hitem]

/-- C4: for every well-formed document of the family, each url child of
urlset yields exactly one Item, and Items preserves document order. -/
theorem C4_one_item_per_url (attrs : List (String × String)) (es : List Entry)
    (hwf : es.all Entry.wf = true) {f : Sitemap.Feed}
    (h : Sitemap.Parse (docToks attrs es) = .ok f) :
    f.Items = es.filterMap entryItem ∧
    f.Items.length = (es.filter Entry.isUrl).length := by
  rw [sitemapParse_doc attrs es hwf] at h
  cases h
  exact ⟨rfl, entryItem_length es⟩

/-- The C4 witness document: two urls with an unrecognized element between
them. -/
def c4es : List Entry :=
  [.urlEl [.locEl ["http://a/"]], .otherEl "junk" [] [.txt "zzz"], .urlEl []]

theorem C4_witness :
    ({ Title := "", Language := "",
       Items := List.filterMap entryItem c4es,
       Version := if attrLookup [] "xmlns"
           = "http://www.sitemaps.org/schemas/sitemap/0.9" then "0.9"
         else "unknow" } : Sitemap.Feed).Items = c4es.filterMap entryItem
    ∧ ({ Title := "", Language := "",
         Items := List.filterMap entryItem c4es,
         Version := if attrLookup [] "xmlns"
             = "http://www.sitemaps.org/schemas/sitemap/0.9" then "0.9"
           else "unknow" } : Sitemap.Feed).Items.length
        = (c4es.filter Entry.isUrl).length
    ∧ (c4es.filter Entry.isUrl).length = 2 := by
  refine ⟨?_, ?_, by decide⟩
  · exact (C4_one_item_per_url [] c4es (by decide) (sitemapParse_doc [] c4es (by decide))).1
  · exact (C4_one_item_per_url [] c4es (by decide) (sitemapParse_doc [] c4es (by decide))).2

/-- C5: the detector maps a root named (case-insensitively) rdf/rss to
RSS, feed to Atom, urlset to Sitemap, returns Unknown for any other root or
when no root is found (by its type it never errors), and the orchestrating
Parse fails with the feed-type-detection error exactly when detection
yields Unknown. -/
theorem C5_detect_and_dispatch (ts : List Tok) :
    (∀ n a e rest, findRoot ts = .ok (.start n a e, rest) →
      Uni.DetectFeedType ts =
        (if strLower n = "rdf" ∨ strLower n = "rss" then .FeedTypeRSS
         else if strLower n = "feed" then .FeedTypeAtom
         else if strLower n = "urlset" then .FeedTypeSitemap
         else .FeedTypeUnknown)) ∧
    ((∀ p : Tok × List Tok, ¬findRoot ts = .ok p) →
      Uni.DetectFeedType ts = .FeedTypeUnknown) ∧
    (∀ (ap rp : List Tok → Except String Uni.Feed) (f : Uni.Parser),
      ((Uni.Parse ap rp f ts).1 = .error .detectFailed ↔
        Uni.DetectFeedType ts = .FeedTypeUnknown)) := by
  refine ⟨?_, ?_, ?_⟩
  · intro n a e rest hfr
    rw [Uni.DetectFeedType]
    simp only [hfr]
    split <;> simp_all
  · intro hno
    rw [Uni.DetectFeedType]
    cases hfr : findRoot ts with
    | error msg => rfl
    | ok p => exact absurd hfr (hno p)
  · intro ap rp f
    rw [Uni.Parse]
    cases hd : Uni.DetectFeedType ts with
    | FeedTypeUnknown => simp
    | FeedTypeAtom =>
      cases hap : ap ts <;> simp [hap]
    | FeedTypeRSS =>
      cases hrp : rp ts <;> simp [hrp]
    | FeedTypeSitemap =>
      cases hsp : Sitemap.Parse ts <;> simp [hsp]

/-- The C5 witness input: an Atom document root. -/
def c5ts : List Tok := [.start "feed" [] false, .stop "feed"]

theorem C5_witness :
    Uni.DetectFeedType c5ts = .FeedTypeAtom ∧
    ((Uni.Parse (fun _ => .ok {}) (fun _ => .ok {}) {} c5ts).1 = .error .detectFailed ↔
      Uni.DetectFeedType c5ts = .FeedTypeUnknown) := by
  constructor
  · have h := (C5_detect_and_dispatch c5ts).1 "feed" [] false [.stop "feed"] rfl
    rw [h]
    decide
  · exact (C5_detect_and_dispatch c5ts).2.2 (fun _ => .ok {}) (fun _ => .ok {}) {}

/-- C6: for every item whose news element carries a publication date, the
raw text is stored in Item.PubDate, PubDateParsed is the UTC-normalized
instant exactly when the date parses (left unset on failure), and the
parse of the document always succeeds regardless of that outcome. -/
theorem C6_news_date (a : List (String × String)) (ns : List NewsChild)
    (hwf : ns.all NewsChild.wf = true) :
    Sitemap.Parse (docToks a [.urlEl [.newsEl ns]])
      = .ok { Title := "", Language := "",
              Items := [{ Title := (newsOf ns).Title, Link := "", Image := none,
                          PubDate := (newsOf ns).PublicationDate,
                          PubDateParsed := (parseDate (newsOf ns).PublicationDate).map timeUTC,
                          Extensions := none }],
              Version := if attrLookup a "xmlns"
                  = "http://www.sitemaps.org/schemas/sitemap/0.9" then "0.9"
                else "unknow" } := by
  rw [sitemapParse_doc a _ (by simp [Entry.wf, UrlChild.wf, urlNoDupLoc, hwf])]
  congr 1
  simp only [List.filterMap_cons, List.filterMap_nil, entryItem]
  cases hpd : parseDate (newsOf ns).PublicationDate <;>
    simp [itemOf, itemUpd, hpd]

def c6good : List NewsChild := [.pubDateEl ["2024-01-02T00:00:00Z"]]

def c6bad : List NewsChild := [.pubDateEl ["not-a-date"]]

theorem C6_witness :
    Sitemap.Parse (docToks [] [.urlEl [.newsEl c6good]])
      = .ok { Title := "", Language := "",
              Items := [{ Title := "", Link := "", Image := none,
                          PubDate := "2024-01-02T00:00:00Z",
                          PubDateParsed := some 1704153600, Extensions := none }],
              Version := "unknow" } ∧
    Sitemap.Parse (docToks [] [.urlEl [.newsEl c6bad]])
      = .ok { Title := "", Language := "",
              Items := [{ Title := "", Link := "", Image := none,
                          PubDate := "not-a-date",
                          PubDateParsed := none, Extensions := none }],
              Version := "unknow" } := by
  constructor
  · have h := C6_news_date [] c6good (by decide)
    have hd : parseDate "2024-01-02T00:00:00Z" = some 1704153600 := by decide
    rw [h]
    simp +decide [c6good, newsOf, newsUpd, sjoin, attrLookup, hd, timeUTC]
  · have h := C6_news_date [] c6bad (by decide)
    have hd : parseDate "not-a-date" = none := by decide
    rw [h]
    simp +decide [c6bad, newsOf, newsUpd, sjoin, attrLookup, hd]

/-- C7: for every parsed item of a one-url document of the family, the
Extensions field is non-nil iff at least one extension-namespace element
occurred among the url's children. -/
theorem C7_extensions_iff (a : List (String × String)) (cs : List UrlChild)
    (h1 : cs.all UrlChild.wf = true) (h2 : urlNoDupLoc "" cs = true) {f : Sitemap.Feed}
    (h : Sitemap.Parse (docToks a [.urlEl cs]) = .ok f) :
    ∃ it, f.Items = [it] ∧
      (¬it.Extensions = none ↔ cs.any UrlChild.isExt = true) := by
  rw [sitemapParse_doc a _ (by simp [Entry.wf, h1, h2])] at h
  cases h
  refine ⟨(itemOf cs).1, by simp [entryItem], ?_⟩
  rw [itemOf_exts, ← extNames_any]
  by_cases hx : extNames cs = [] <;> simp [hx]

def c7cs : List UrlChild := [.extEl "geo" [] [.txt "payload"], .locEl ["http://a/"]]

theorem C7_witness :
    ∃ it, ({ Title := "", Language := "",
             Items := List.filterMap entryItem [Entry.urlEl c7cs],
             Version := if attrLookup [] "xmlns"
                 = "http://www.sitemaps.org/schemas/sitemap/0.9" then "0.9"
               else "unknow" } : Sitemap.Feed).Items = [it]
      ∧ (¬it.Extensions = none ↔ c7cs.any UrlChild.isExt = true) :=
  C7_extensions_iff [] c7cs (by decide) (by decide) (sitemapParse_doc [] _ (by decide))

theorem itemOf_no_news (cs : List UrlChild)
    (hn : cs.all (fun c => !UrlChild.isNews c) = true) :
    (itemOf cs).1.Title = "" ∧ (itemOf cs).1.PubDateParsed = none := by
  have h := itemUpd_no_news cs hn ({}, {}, [])
  rw [itemOf]
  cases hfold : cs.foldl itemUpd ({}, {}, []) with
  | mk item p =>
    obtain ⟨fd, acc⟩ := p
    rw [hfold] at h
    simp only at h
    show (if 0 < acc.length then { item with Extensions := some acc } else item).Title = ""
        ∧ (if 0 < acc.length then { item with Extensions := some acc } else item).PubDateParsed
            = none
    by_cases hl : 0 < acc.length <;> simp [hl, h.1, h.2]

/-- C8: an item whose url element has no news child has Title "" and
PubDateParsed unset. -/
theorem C8_no_news_defaults (a : List (String × String)) (cs : List UrlChild)
    (h1 : cs.all UrlChild.wf = true) (h2 : urlNoDupLoc "" cs = true)
    (hn : cs.all (fun c => !UrlChild.isNews c) = true) {f : Sitemap.Feed}
    (h : Sitemap.Parse (docToks a [.urlEl cs]) = .ok f) :
    ∃ it, f.Items = [it] ∧ it.Title = "" ∧ it.PubDateParsed = none := by
  rw [sitemapParse_doc a _ (by simp [Entry.wf, h1, h2])] at h
  cases h
  exact ⟨(itemOf cs).1, by simp [entryItem], (itemOf_no_news cs hn).1,
    (itemOf_no_news cs hn).2⟩

def c8cs : List UrlChild := [.locEl ["http://a/"], .otherEl "junk" [] [.txt "zzz"]]

theorem C8_witness :
    ∃ it, ({ Title := "", Language := "",
             Items := List.filterMap entryItem [Entry.urlEl c8cs],
             Version := if attrLookup [] "xmlns"
                 = "http://www.sitemaps.org/schemas/sitemap/0.9" then "0.9"
               else "unknow" } : Sitemap.Feed).Items = [it]
      ∧ it.Title = "" ∧ it.PubDateParsed = none :=
  C8_no_news_defaults [] c8cs (by decide) (by decide) (by decide)
    (sitemapParse_doc [] _ (by decide))

/-- C9: running the parse pipeline twice over the same token stream —
threading the possibly updated parser state (the lazily installed Sitemap
translator) from the first run into the second — returns the same result:
the pipeline is deterministic and the lazy initialization does not affect
the output. -/
theorem C9_parse_deterministic (ap rp : List Tok → Except String Uni.Feed)
    (f : Uni.Parser) (ts : List Tok) :
    (Uni.Parse ap rp ((Uni.Parse ap rp f ts).2) ts).1 = (Uni.Parse ap rp f ts).1 := by
  rw [Uni.Parse, Uni.Parse]
  cases hd : Uni.DetectFeedType ts with
  | FeedTypeUnknown => rfl
  | FeedTypeAtom => cases hap : ap ts <;> rfl
  | FeedTypeRSS => cases hrp : rp ts <;> rfl
  | FeedTypeSitemap =>
    cases hsp : Sitemap.Parse ts with
    | error msg => rfl
    | ok sf =>
      rw [Uni.sitemapTrans]
      cases hc : f.SitemapTranslator with
      | some t => simp [Uni.sitemapTrans, hc]
      | none => simp [Uni.sitemapTrans, hc]

/-- C10: if the Parser's Client is already set — for example installed by
the no-proxy `httpClient` getter that `ParseURL` uses — then
`httpClientWithProxy` returns that client unchanged, so the proxy argument
is silently ignored and the client used has no proxy transport. -/
theorem C10_proxy_ignored :
    (∀ (f : Uni.Parser) (c : Uni.HTTPClient) (u : String),
        f.Client = some c → Uni.httpClientWithProxy u f = (c, f)) ∧
    (∀ (f : Uni.Parser) (u : String), f.Client = none →
        (Uni.httpClientWithProxy u (Uni.httpClient f).2).1 = (Uni.httpClient f).1 ∧
        (Uni.httpClientWithProxy u (Uni.httpClient f).2).1.Transport = none) := by
  constructor
  · intro f c u hc
    rw [Uni.httpClientWithProxy]
    simp [hc]
  · intro f u hc
    rw [Uni.httpClient]
    simp only [hc]
    rw [Uni.httpClientWithProxy]
    simp

theorem C10_witness :
    (Uni.httpClientWithProxy "10.0.0.1:8080" (Uni.httpClient {}).2).1
        = (Uni.httpClient ({} : Uni.Parser)).1 ∧
    (Uni.httpClientWithProxy "10.0.0.1:8080" (Uni.httpClient {}).2).1.Transport = none :=
  (C10_proxy_ignored).2 {} "10.0.0.1:8080" rfl

end GofeedSpec
